import Mathlib

/-!
Shallow embedding of the live classroom core of the tutor-backend repository:
the session/connection registry and broadcast router
(`app/services/websocket_handler.py`, class `LiveClassroomManager`) and the
streaming explanation generator
(`app/services/live_teaching.py`, class `LiveTeachingService`).

Modelling conventions:
* a WebSocket handle is an opaque `Listener` (a `Nat`);
* Python dicts keyed by session id / websocket are association lists
  (`alookup` / `aset` / `aerase` model `d[k]`, `d[k] = v`, `del d[k]`);
* Python sets of websockets are duplicate-free lists (`.add` via `sadd`,
  `.discard` via `List.erase`);
* a failed `websocket.send_json` (closed/broken channel) is modelled by a
  `broken : Listener → Bool` predicate; `send` returns `Except`, and code
  paths that Python wraps in `try/except` pattern-match on the result, while
  unprotected `await`s propagate the `.error`;
* wall-clock data (`created_at`, `joined_at`, the `timestamp` field of text
  events, `asyncio.sleep` pacing) is out of scope and omitted;
* the OpenAI stream is an opaque producer: a run of the generator is
  determined by the list of delivered text fragments (`chunks`) and an
  optional terminal failure (`failure = some msg` models the stream raising
  an exception with message `msg` after those fragments were delivered).
-/

abbrev Listener := Nat

/-! ### Association lists: the model of Python dicts -/

section AList

variable {α β : Type} [DecidableEq α]

/-- `d.get(k)` / `d[k]` read access. -/
def alookup : List (α × β) → α → Option β
  | [], _ => none
  | (k, v) :: t, a => if k = a then some v else alookup t a

/-- `d[k] = v`: replace the binding in place, or append a fresh one. -/
def aset : List (α × β) → α → β → List (α × β)
  | [], a, b => [(a, b)]
  | (k, v) :: t, a, b => if k = a then (a, b) :: t else (k, v) :: aset t a b

/-- `del d[k]`: remove the (first) binding of `k`. -/
def aerase : List (α × β) → α → List (α × β)
  | [], _ => []
  | (k, v) :: t, a => if k = a then t else (k, v) :: aerase t a

/-- The keys of an association list. -/
def akeys (l : List (α × β)) : List α := l.map Prod.fst

theorem alookup_aset_self (l : List (α × β)) (k : α) (v : β) :
    alookup (aset l k v) k = some v := by
  induction l with
  | nil => simp [aset, alookup]
  | cons p t ih =>
    obtain ⟨k1, v1⟩ := p
    by_cases h : k1 = k <;> simp [aset, alookup, h, ih]

theorem akeys_nil : akeys ([] : List (α × β)) = [] := rfl

theorem akeys_cons (k : α) (v : β) (t : List (α × β)) :
    akeys ((k, v) :: t) = k :: akeys t := rfl

theorem aset_cons_self (k : α) (v v2 : β) (t : List (α × β)) :
    aset ((k, v2) :: t) k v = (k, v) :: t := by simp [aset]

theorem aset_cons_ne (k k2 : α) (v v2 : β) (t : List (α × β)) (h : k2 ≠ k) :
    aset ((k2, v2) :: t) k v = (k2, v2) :: aset t k v := by simp [aset, h]

theorem aerase_cons_self (k : α) (v2 : β) (t : List (α × β)) :
    aerase ((k, v2) :: t) k = t := by simp [aerase]

theorem aerase_cons_ne (k k2 : α) (v2 : β) (t : List (α × β)) (h : k2 ≠ k) :
    aerase ((k2, v2) :: t) k = (k2, v2) :: aerase t k := by simp [aerase, h]

theorem alookup_aset_ne (l : List (α × β)) (k k1 : α) (v : β) (h : k1 ≠ k) :
    alookup (aset l k v) k1 = alookup l k1 := by
  induction l with
  | nil =>
    have h2 : ¬ k = k1 := fun hh => h hh.symm
    simp [aset, alookup, h2]
  | cons p t ih =>
    obtain ⟨k2, v2⟩ := p
    by_cases h2 : k2 = k
    · subst h2
      have h3 : ¬ k2 = k1 := fun hh => h hh.symm
      rw [aset_cons_self]
      simp [alookup, h3]
    · rw [aset_cons_ne _ _ _ _ _ h2]
      simp only [alookup]
      rw [ih]

theorem alookup_aerase_ne (l : List (α × β)) (k k1 : α) (h : k1 ≠ k) :
    alookup (aerase l k) k1 = alookup l k1 := by
  induction l with
  | nil => simp [aerase]
  | cons p t ih =>
    obtain ⟨k2, v2⟩ := p
    by_cases h2 : k2 = k
    · subst h2
      have h3 : ¬ k2 = k1 := fun hh => h hh.symm
      rw [aerase_cons_self]
      simp [alookup, h3]
    · rw [aerase_cons_ne _ _ _ _ h2]
      simp only [alookup]
      rw [ih]

theorem mem_akeys_iff_alookup (l : List (α × β)) (k : α) :
    k ∈ akeys l ↔ (alookup l k).isSome := by
  induction l with
  | nil => simp [akeys, alookup]
  | cons p t ih =>
    obtain ⟨k1, v1⟩ := p
    rw [akeys_cons, List.mem_cons]
    by_cases h : k1 = k
    · subst h
      simp [alookup]
    · have h2 : ¬ k = k1 := fun hh => h hh.symm
      simp [alookup, h, h2, ih]

theorem alookup_eq_none_iff (l : List (α × β)) (k : α) :
    alookup l k = none ↔ k ∉ akeys l := by
  rw [mem_akeys_iff_alookup]
  cases h : alookup l k <;> simp [h]

theorem alookup_mem (l : List (α × β)) (k : α) (v : β)
    (h : alookup l k = some v) : (k, v) ∈ l := by
  induction l with
  | nil => simp [alookup] at h
  | cons p t ih =>
    obtain ⟨k1, v1⟩ := p
    by_cases h1 : k1 = k
    · subst h1
      simp [alookup] at h
      simp [h]
    · simp [alookup, h1] at h
      exact List.mem_cons_of_mem _ (ih h)

theorem mem_alookup_of_nodup (l : List (α × β)) (k : α) (v : β)
    (hn : (akeys l).Nodup) (h : (k, v) ∈ l) : alookup l k = some v := by
  induction l with
  | nil => simp at h
  | cons p t ih =>
    obtain ⟨k1, v1⟩ := p
    rw [akeys_cons, List.nodup_cons] at hn
    rcases List.mem_cons.mp h with h | h
    · simp only [Prod.mk.injEq] at h
      obtain ⟨h1, h2⟩ := h
      subst h1
      subst h2
      simp [alookup]
    · have hk : ¬ k1 = k := by
        intro he
        subst he
        exact hn.1 (List.mem_map.mpr ⟨(k1, v), h, rfl⟩)
      simp [alookup, hk]
      exact ih hn.2 h

theorem mem_akeys_aset (l : List (α × β)) (k k1 : α) (v : β) :
    k1 ∈ akeys (aset l k v) ↔ k1 = k ∨ k1 ∈ akeys l := by
  induction l with
  | nil => simp [aset, akeys]
  | cons p t ih =>
    obtain ⟨k2, v2⟩ := p
    by_cases h : k2 = k
    · subst h
      rw [aset_cons_self, akeys_cons, akeys_cons]
      simp only [List.mem_cons]
      tauto
    · rw [aset_cons_ne _ _ _ _ _ h, akeys_cons, akeys_cons]
      simp only [List.mem_cons]
      rw [ih]
      tauto

theorem nodup_akeys_aset (l : List (α × β)) (k : α) (v : β)
    (hn : (akeys l).Nodup) : (akeys (aset l k v)).Nodup := by
  induction l with
  | nil => simp [aset, akeys]
  | cons p t ih =>
    obtain ⟨k2, v2⟩ := p
    rw [akeys_cons, List.nodup_cons] at hn
    by_cases h : k2 = k
    · subst h
      rw [aset_cons_self, akeys_cons, List.nodup_cons]
      exact hn
    · rw [aset_cons_ne _ _ _ _ _ h, akeys_cons, List.nodup_cons]
      refine ⟨fun hmem => ?_, ih hn.2⟩
      rcases (mem_akeys_aset t k k2 v).mp hmem with h1 | h1
      · exact h h1
      · exact hn.1 h1

theorem mem_aerase_sub (l : List (α × β)) (k : α) {p : α × β}
    (h : p ∈ aerase l k) : p ∈ l := by
  induction l with
  | nil => simpa [aerase] using h
  | cons q t ih =>
    obtain ⟨k2, v2⟩ := q
    by_cases h2 : k2 = k
    · subst h2
      rw [aerase_cons_self] at h
      exact List.mem_cons_of_mem _ h
    · rw [aerase_cons_ne _ _ _ _ h2] at h
      rcases List.mem_cons.mp h with h | h
      · simp [h]
      · exact List.mem_cons_of_mem _ (ih h)

theorem akeys_aerase_sub (l : List (α × β)) (k k1 : α)
    (h : k1 ∈ akeys (aerase l k)) : k1 ∈ akeys l := by
  rcases List.mem_map.mp h with ⟨p, hp, he⟩
  exact he ▸ List.mem_map.mpr ⟨p, mem_aerase_sub l k hp, rfl⟩

theorem nodup_akeys_aerase (l : List (α × β)) (k : α)
    (hn : (akeys l).Nodup) : (akeys (aerase l k)).Nodup := by
  induction l with
  | nil => simp [aerase, akeys]
  | cons q t ih =>
    obtain ⟨k2, v2⟩ := q
    rw [akeys_cons, List.nodup_cons] at hn
    by_cases h2 : k2 = k
    · subst h2
      rw [aerase_cons_self]
      exact hn.2
    · rw [aerase_cons_ne _ _ _ _ h2, akeys_cons, List.nodup_cons]
      exact ⟨fun hmem => hn.1 (akeys_aerase_sub t k k2 hmem), ih hn.2⟩

theorem not_mem_akeys_aerase_self (l : List (α × β)) (k : α)
    (hn : (akeys l).Nodup) : k ∉ akeys (aerase l k) := by
  induction l with
  | nil => simp [aerase, akeys]
  | cons q t ih =>
    obtain ⟨k2, v2⟩ := q
    rw [akeys_cons, List.nodup_cons] at hn
    by_cases h2 : k2 = k
    · subst h2
      rw [aerase_cons_self]
      exact hn.1
    · rw [aerase_cons_ne _ _ _ _ h2, akeys_cons, List.mem_cons]
      rintro (h | h)
      · exact h2 h.symm
      · exact ih hn.2 h

theorem alookup_aerase_self (l : List (α × β)) (k : α)
    (hn : (akeys l).Nodup) : alookup (aerase l k) k = none :=
  (alookup_eq_none_iff _ _).mpr (not_mem_akeys_aerase_self l k hn)

theorem aset_of_not_mem (l : List (α × β)) (k : α) (v : β)
    (h : k ∉ akeys l) : aset l k v = l ++ [(k, v)] := by
  induction l with
  | nil => simp [aset]
  | cons q t ih =>
    obtain ⟨k2, v2⟩ := q
    rw [akeys_cons, List.mem_cons] at h
    push_neg at h
    rw [aset_cons_ne _ _ _ _ _ (fun he => h.1 he.symm), ih h.2]
    rfl

theorem mem_aset_nodup (l : List (α × β)) (k : α) (v : β) {p : α × β}
    (hn : (akeys l).Nodup) (h : p ∈ aset l k v) :
    p = (k, v) ∨ (p ∈ l ∧ p.1 ≠ k) := by
  induction l with
  | nil =>
    rw [show aset ([] : List (α × β)) k v = [(k, v)] from rfl] at h
    simp at h
    exact Or.inl h
  | cons q t ih =>
    obtain ⟨k2, v2⟩ := q
    rw [akeys_cons, List.nodup_cons] at hn
    by_cases h2 : k2 = k
    · subst h2
      rw [aset_cons_self] at h
      rcases List.mem_cons.mp h with h | h
      · exact Or.inl h
      · refine Or.inr ⟨List.mem_cons_of_mem _ h, fun he => ?_⟩
        exact hn.1 (List.mem_map.mpr ⟨p, h, he⟩)
    · rw [aset_cons_ne _ _ _ _ _ h2] at h
      rcases List.mem_cons.mp h with h | h
      · refine Or.inr ⟨List.mem_cons.mpr (Or.inl h), ?_⟩
        rw [h]
        exact h2
      · rcases ih hn.2 h with h3 | h3
        · exact Or.inl h3
        · exact Or.inr ⟨List.mem_cons_of_mem _ h3.1, h3.2⟩

end AList

/-! ### String helpers mirroring the Python string operations used by the core -/

/-- `str.lower()` (per-character, as CPython does for the ASCII text involved). -/
def pyLower (s : String) : String := String.mk (s.data.map Char.toLower)

/-- `str.strip(chars)`: drop characters of `cs` from both ends. -/
def stripChars (cs : List Char) (s : String) : String :=
  String.mk (((s.data.dropWhile (fun c => c ∈ cs)).reverse.dropWhile
    (fun c => c ∈ cs)).reverse)

/-- `str.strip()` with no argument: drop whitespace from both ends. -/
def pyStrip (s : String) : String :=
  String.mk (((s.data.dropWhile Char.isWhitespace).reverse.dropWhile
    Char.isWhitespace).reverse)

/-- `str.split()` with no argument: split on whitespace runs, dropping empties. -/
def pySplit (s : String) : List String :=
  ((List.splitOnP (fun c => c.isWhitespace) s.data).map
    (fun l => String.mk l)).filter (fun t => t ≠ "")

/-- `c in s` for a single character `c`. -/
def strContainsChar (s : String) (c : Char) : Bool := s.data.contains c

/-- First index at which `pat` occurs in `l` (`str.find`, as an `Option`). -/
def findSub : List Char → List Char → Option Nat
  | [], pat => if pat.isPrefixOf ([] : List Char) then some 0 else none
  | c :: rest, pat =>
    if pat.isPrefixOf (c :: rest) then some 0
    else (findSub rest pat).map (fun i => i + 1)

/-- `pat in s` substring test. -/
def containsSub (s pat : String) : Bool := (findSub s.data pat.data).isSome

/-- `"".join`-style concatenation of the delivered stream fragments
(the value accumulated in `full_text`). -/
def pyConcat (l : List String) : String := l.foldl (fun a b => a ++ b) ""

/-! ### Events of the streaming explanation generator
(`LiveTeachingService.stream_explanation`).

The `data` payload of a visual cue is either `{"type": t}` (trigger-table
cues) or `{"description": d}` (inline `[VISUAL: ...]` markers). Wall-clock
`timestamp` fields and the constant `status` strings are omitted. -/

inductive CueData where
  | vtype (t : String)
  | vdescr (d : String)
deriving DecidableEq, Repr

structure Cue where
  action : String
  data : CueData
deriving DecidableEq, Repr

inductive TEvent where
  | start (question : String)
  | text (content : String)
  | emphasis (word : String) (importance : String)
  | visualCue (action : String) (data : CueData)
  | pause (duration : ℚ)
  | complete (fullText : String)
  | error (message : String)
deriving DecidableEq, Repr

/-- `LiveTeachingService._check_emphasis`: high-importance word table. -/
def highImportance : List String :=
  ["gravity", "force", "energy", "mass", "velocity", "acceleration",
   "important", "key", "crucial", "remember", "note", "formula",
   "equation", "theorem", "law", "principle", "concept"]

/-- `LiveTeachingService._check_emphasis`: medium-importance word table. -/
def mediumImportance : List String :=
  ["example", "because", "therefore", "however", "although",
   "first", "second", "third", "finally", "result"]

/-- `LiveTeachingService._check_emphasis`:
`word.lower().strip('.,!?')`, then membership in the two tables. -/
def checkEmphasis (word : String) : Option String :=
  let wordLower := stripChars ['.', ',', '!', '?'] (pyLower word)
  if wordLower ∈ highImportance then some "high"
  else if wordLower ∈ mediumImportance then some "medium"
  else none

/-- `LiveTeachingService._extract_visual_cue`: the fixed trigger table,
in source (insertion) order. -/
def visualTriggers : List (String × Cue) :=
  [("falling", ⟨"animate", .vtype "falling_object"⟩),
   ("dropping", ⟨"animate", .vtype "falling_object"⟩),
   ("apple falls", ⟨"animate", .vtype "apple_falling"⟩),
   ("pendulum", ⟨"animate", .vtype "pendulum_swing"⟩),
   ("swings", ⟨"animate", .vtype "pendulum_swing"⟩),
   ("wave", ⟨"animate", .vtype "wave_motion"⟩),
   ("oscillate", ⟨"animate", .vtype "oscillation"⟩),
   ("graph", ⟨"show_graph", .vtype "function_graph"⟩),
   ("circle", ⟨"draw", .vtype "circle"⟩),
   ("triangle", ⟨"draw", .vtype "triangle"⟩),
   ("diagram", ⟨"show_diagram", .vtype "generic"⟩)]

/-- `LiveTeachingService._extract_visual_cue`: inline `[visual:` marker first
(Python slices the original sentence at the indices found in the lowered
copy, and falls through to the trigger table when no closing `]` follows
the marker at distance > 0), then the first matching trigger. -/
def extractVisualCue (sentence : String) : Option Cue :=
  let lower := pyLower sentence
  let inline : Option Cue :=
    match findSub lower.data "[visual:".data with
    | some i =>
      let first := i + 8
      match findSub (lower.data.drop first) [']'] with
      | some k =>
        if k > 0 then
          some ⟨"show_visual",
            .vdescr (pyStrip (String.mk ((sentence.data.drop first).take k)))⟩
        else none
      | none => none
    | none => none
  match inline with
  | some c => some c
  | none =>
    visualTriggers.findSome? (fun p =>
      if containsSub lower p.1 then some p.2 else none)

/-- State of one streaming run: the three accumulation buffers of
`stream_explanation` (`full_text`, `current_sentence`, `word_buffer`). -/
structure GenState where
  fullText : String
  currentSentence : String
  wordBuffer : String
deriving DecidableEq, Repr

def initGenState : GenState := ⟨"", "", ""⟩

/-- The fixed sentence-boundary pause duration
(`{"type": "pause", "duration": 0.3}`, i.e. the rational 3/10, written as a
literal so that it evaluates in the kernel). -/
def sentencePause : ℚ := ⟨3, 10, by decide, by decide⟩

/-- Events emitted for one completed word of `words[:-1]`:
a `text` event carrying the word plus a trailing space, then an
`emphasis` event when `_check_emphasis` matches. -/
def emitWord (w : String) : List TEvent :=
  .text (w ++ " ") ::
    (match checkEmphasis w with
     | some imp => [.emphasis w imp]
     | none => [])

/-- One iteration of the `async for chunk in stream` body of
`stream_explanation` for a delivered fragment `content`:
skipped when `content` is falsy (empty); otherwise the three buffers grow,
completed words are flushed (`words[:-1]`, keeping `words[-1]` in the
buffer), and when the current-sentence buffer contains `.`, `!` or `?` it
is scanned for a visual cue, cleared, and a fixed pause is emitted. -/
def processContent (st : GenState) (content : String) : GenState × List TEvent :=
  if content = "" then (st, [])
  else
    let fullText := st.fullText ++ content
    let wb0 := st.wordBuffer ++ content
    let cs0 := st.currentSentence ++ content
    let wordStep : String × List TEvent :=
      if strContainsChar wb0 ' ' || strContainsChar wb0 '\n' then
        let words := pySplit wb0
        (words.getLastD "", words.dropLast.flatMap emitWord)
      else (wb0, [])
    let sentStep : String × List TEvent :=
      if strContainsChar cs0 '.' || strContainsChar cs0 '!' ||
          strContainsChar cs0 '?' then
        ("", (match extractVisualCue cs0 with
              | some cue => [.visualCue cue.action cue.data]
              | none => []) ++ [.pause sentencePause])
      else (cs0, [])
    (⟨fullText, sentStep.1, wordStep.1⟩, wordStep.2 ++ sentStep.2)

/-- Folding `processContent` over the delivered fragments in order. -/
def runChunks (st : GenState) : List String → GenState × List TEvent
  | [] => (st, [])
  | c :: rest =>
    let r1 := processContent st c
    let r2 := runChunks r1.1 rest
    (r2.1, r1.2 ++ r2.2)

/-- `LiveTeachingService.stream_explanation` as the list of events of one
run. `chunks` are the fragments the source delivered; `failure = some msg`
models the stream raising an exception (message `msg`) after delivering
them, in which case the `except` clause yields a single `error` event; on
exhaustion the remaining word buffer is flushed (as a bare `text` event,
without trailing space) and a final `complete` event carries `full_text`. -/
def streamExplanation (question : String) (chunks : List String)
    (failure : Option String) : List TEvent :=
  let r := runChunks initGenState chunks
  TEvent.start question ::
    match failure with
    | some msg => r.2 ++ [.error msg]
    | none =>
      r.2 ++ (if r.1.wordBuffer = "" then [] else [.text r.1.wordBuffer]) ++
        [.complete r.1.fullText]

/-! ### The session registry and broadcast router
(`LiveClassroomManager` in `app/services/websocket_handler.py`). -/

/-- Per-session metadata (`self.session_states[sid]`). `created_at` is a
wall-clock timestamp and is omitted; the `is_paused` key is only created by
the pause/resume handlers, hence an `Option`. -/
structure SessState where
  currentQuestion : Option String
  isTeaching : Bool
  isPaused : Option Bool
  participants : Int
deriving DecidableEq, Repr

/-- Per-connection metadata (`self.user_data[websocket]`); `joined_at` is a
wall-clock timestamp and is omitted. -/
structure UserInfo where
  sessionId : String
  userId : Option String
deriving DecidableEq, Repr

/-- The three tables of `LiveClassroomManager.__init__`. -/
structure MState where
  active : List (String × List Listener)
  states : List (String × SessState)
  user : List (Listener × UserInfo)
deriving DecidableEq, Repr

def emptyMState : MState := ⟨[], [], []⟩

/-- `set.add`: a no-op when already present, otherwise appended. -/
def sadd (l : List Listener) (w : Listener) : List Listener :=
  if w ∈ l then l else l ++ [w]

/-- Exceptions the embedded code can raise: a failed channel write
(`websocket.send_json` on a broken channel) or a `KeyError` from indexing a
dict with a missing key. -/
inductive PyErr where
  | sendFailure
  | keyError
deriving DecidableEq, Repr

/-- Messages sent over channels by the manager: its own dict payloads plus
generator events forwarded verbatim (`Msg.ev`). Payload fields that are
wall-clock timestamps or constant human-readable strings are omitted. -/
inductive VUpdate where
  | animation (animType : Option String) (name : String) (duration : Nat)
  | image (description : Option String)
deriving DecidableEq, Repr

inductive Msg where
  | connected (sessionId : String) (participants : Int)
  | userJoined (participants : Int)
  | userLeft (participants : Int)
  | teachingStart (question : String) (subject : Option String)
  | teachingEnd
  | errMsg (message : String)
  | ev (e : TEvent)
  | visualUpdate (v : VUpdate)
  | chatMessage (userId : Option String) (message : String)
  | sessionPaused
  | sessionResumed
  | feedbackReceived
  | visualLoading (visualType : String) (concept : String)
  | visualReady (visualType : Option String) (url : Option String) (concept : String)
deriving DecidableEq, Repr

abbrev Log := List (Listener × Msg)

/-- `await websocket.send_json(m)`: raises exactly on a broken channel. -/
def send (broken : Listener → Bool) (ws : Listener) (_m : Msg) :
    Except PyErr Unit :=
  if broken ws then .error .sendFailure else .ok ()

/-- The deferred-removal pass at the end of `broadcast_to_session`:
`for ws in disconnected: await self.disconnect(ws)`, threading state and
concatenating the `user_left` notifications each disconnect may emit.
An exception from `disconnect` propagates (the loop body is not guarded). -/
def cleanupWith (f : MState → Listener → Except PyErr (MState × Log)) :
    MState → List Listener → Except PyErr (MState × Log)
  | s, [] => .ok (s, [])
  | s, w :: ws =>
    match f s w with
    | .error e => .error e
    | .ok (s2, l1) =>
      match cleanupWith f s2 ws with
      | .error e => .error e
      | .ok (s3, l2) => .ok (s3, l1 ++ l2)

/-- `LiveClassroomManager.broadcast_to_session`, with the recursive call to
`disconnect` abstracted as `disc`. Returns the updated state and the log of
successful deliveries (the fan-out pass logs `m` for each non-excluded,
non-broken member of the session's set; the cleanup pass appends whatever
the disconnects broadcast). A `send_json` failure is caught (the listener is
marked instead); nothing else in the body can raise except `disc` itself. -/
def broadcastGo (broken : Listener → Bool)
    (disc : MState → Listener → Except PyErr (MState × Log))
    (s : MState) (sid : String) (m : Msg) (excl : Option Listener) :
    Except PyErr (MState × Log) :=
  match alookup s.active sid with
  | none => .ok (s, [])
  | some conns =>
    let targets := conns.filter (fun w => !(excl == some w))
    let delivered := targets.filter (fun w => !broken w)
    let marked := targets.filter (fun w => broken w)
    match cleanupWith disc s marked with
    | .error e => .error e
    | .ok (s2, clog) => .ok (s2, delivered.map (fun w => (w, m)) ++ clog)

/-- `LiveClassroomManager.disconnect`, with the nested
`broadcast_to_session` of `user_left` abstracted as `bcast`.
Mirrors the source order: `user_data.get` guard, session-presence guard,
`discard`, participant decrement (a `KeyError` if the session has no state
entry — unreachable from consistent states), empty-session deletion or
`user_left` broadcast, then `del self.user_data[websocket]`. -/
def disconnectGo
    (bcast : MState → String → Msg → Option Listener → Except PyErr (MState × Log))
    (s : MState) (ws : Listener) : Except PyErr (MState × Log) :=
  match alookup s.user ws with
  | none => .ok (s, [])
  | some info =>
    let sid := info.sessionId
    match alookup s.active sid with
    | none => .ok ({ s with user := aerase s.user ws }, [])
    | some conns =>
      let conns2 := conns.erase ws
      match alookup s.states sid with
      | none => .error .keyError
      | some st =>
        let st2 : SessState := { st with participants := st.participants - 1 }
        let s2 : MState :=
          { s with active := aset s.active sid conns2,
                   states := aset s.states sid st2 }
        if conns2.isEmpty then
          .ok ({ s2 with active := aerase s2.active sid,
                         states := aerase s2.states sid,
                         user := aerase s2.user ws }, [])
        else
          match bcast s2 sid (.userLeft st2.participants) none with
          | .error e => .error e
          | .ok (s3, log) => .ok ({ s3 with user := aerase s3.user ws }, log)

structure Engine where
  disc : MState → Listener → Except PyErr (MState × Log)
  bcast : MState → String → Msg → Option Listener → Except PyErr (MState × Log)

/-- The mutually recursive `disconnect`/`broadcast_to_session` pair, tied
with a fuel parameter (each level of the broadcast/disconnect cascade
consumes one unit; the wrappers below supply more fuel than any cascade can
use, since every disconnect permanently removes a listener). -/
def engine (broken : Listener → Bool) : Nat → Engine
  | 0 =>
    ⟨fun s _ => .ok (s, []),
     broadcastGo broken (fun s _ => .ok (s, []))⟩
  | fuel + 1 =>
    ⟨disconnectGo (engine broken fuel).bcast,
     broadcastGo broken (engine broken fuel).disc⟩

def totalConns (s : MState) : Nat := (s.active.map (fun p => p.2.length)).sum

def fuelFor (s : MState) : Nat := totalConns s + s.user.length + 2

/-- `LiveClassroomManager.disconnect`. -/
def disconnectW (broken : Listener → Bool) (s : MState) (ws : Listener) :
    Except PyErr (MState × Log) :=
  (engine broken (fuelFor s)).disc s ws

/-- `LiveClassroomManager.broadcast_to_session`. -/
def broadcastW (broken : Listener → Bool) (s : MState) (sid : String)
    (m : Msg) (excl : Option Listener) : Except PyErr (MState × Log) :=
  (engine broken (fuelFor s)).bcast s sid m excl

/-- `LiveClassroomManager.connect`. All table mutations precede the two
sends; the welcome `send_json` is not guarded, so on a broken new channel
the mutated state is kept and the error recorded (third component), and the
`user_joined` broadcast is skipped. `websocket.accept()` is modelled as
succeeding. -/
def connectW (broken : Listener → Bool) (s : MState) (ws : Listener)
    (sid : String) (uid : Option String) : MState × Log × Option PyErr :=
  let s0 : MState :=
    if sid ∈ akeys s.active then s
    else { s with active := aset s.active sid [],
                  states := aset s.states sid ⟨none, false, none, 0⟩ }
  let conns := (alookup s0.active sid).getD []
  let s1 : MState :=
    { s0 with active := aset s0.active sid (sadd conns ws),
              user := aset s0.user ws ⟨sid, uid⟩ }
  match alookup s1.states sid with
  | none => (s1, [], some .keyError)
  | some st =>
    let st1 : SessState := { st with participants := st.participants + 1 }
    let s2 : MState := { s1 with states := aset s1.states sid st1 }
    let welcome : Msg := .connected sid st1.participants
    match send broken ws welcome with
    | .error e => (s2, [], some e)
    | .ok _ =>
      match broadcastW broken s2 sid (.userJoined st1.participants) (some ws) with
      | .error e => (s2, [], some e)
      | .ok (s3, blog) => (s3, (ws, welcome) :: blog, none)

/-! ### The command dispatcher (`handle_message` and the handlers). -/

/-- `LiveClassroomManager._get_animation_data`: the static animation lookup
table (`animations.get(anim_type, {"name": "Generic", "duration": 2000})`).
Only the descriptor identity (`name`, `duration`) is modelled; the
geometric rendering payload fields are opaque client data. -/
def getAnimationData : Option String → String × Nat
  | some "falling_object" => ("Falling Object", 2000)
  | some "apple_falling" => ("Apple Falling", 2000)
  | some "pendulum_swing" => ("Pendulum", 3000)
  | some "wave_motion" => ("Wave", 4000)
  | some "oscillation" => ("Oscillation", 3000)
  | _ => ("Generic", 2000)

/-- `LiveClassroomManager._process_visual_cue` on a `visual_cue` event with
the given `action` and `data`: a `visual_update` for the `animate` and
`show_visual` actions, `None` otherwise. -/
def processVisualCue (action : String) (data : CueData) : Option VUpdate :=
  if action = "animate" then
    let animType : Option String :=
      match data with
      | .vtype t => some t
      | .vdescr _ => none
    let ad := getAnimationData animType
    some (.animation animType ad.1 ad.2)
  else if action = "show_visual" then
    some (.image (match data with
                  | .vdescr d => some d
                  | .vtype _ => none))
  else none

/-- The `async for event in stream_explanation(...)` loop body of
`handle_question`: broadcast each event, and for a `visual_cue` event also
broadcast the derived `visual_update` when `_process_visual_cue` returns
one. Returns the state, the accumulated delivery log, and the first
exception (which in Python would jump to the `except` clause). -/
def qLoop (broken : Listener → Bool) (s : MState) (sid : String) :
    List TEvent → MState × Log × Option PyErr
  | [] => (s, [], none)
  | e :: rest =>
    match broadcastW broken s sid (.ev e) none with
    | .error err => (s, [], some err)
    | .ok (s1, l1) =>
      match e with
      | .visualCue action data =>
        match processVisualCue action data with
        | some vu =>
          match broadcastW broken s1 sid (.visualUpdate vu) none with
          | .error err => (s1, l1, some err)
          | .ok (s2, l2) =>
            let r := qLoop broken s2 sid rest
            (r.1, l1 ++ l2 ++ r.2.1, r.2.2)
        | none =>
          let r := qLoop broken s1 sid rest
          (r.1, l1 ++ r.2.1, r.2.2)
      | _ =>
        let r := qLoop broken s1 sid rest
        (r.1, l1 ++ r.2.1, r.2.2)

/-- `self.session_states[session_id]["current_question"] = question` and
`... ["is_teaching"] = True` (lines before the `try`): a `KeyError` if the
session is gone. -/
def setQuestionTeaching (s : MState) (sid : String) (q : String) :
    Except PyErr MState :=
  match alookup s.states sid with
  | none => .error .keyError
  | some st =>
    let st1 : SessState := { st with currentQuestion := some q, isTeaching := true }
    .ok { s with states := aset s.states sid st1 }

/-- `self.session_states[session_id]["is_teaching"] = False`: a `KeyError`
if the session is gone. -/
def clearTeaching (s : MState) (sid : String) : Except PyErr MState :=
  match alookup s.states sid with
  | none => .error .keyError
  | some st =>
    .ok { s with states := aset s.states sid { st with isTeaching := false } }

/-- The `except Exception` clause of `handle_question`: broadcast a generic
`error` event, then clear `is_teaching` by direct dict indexing — which
itself raises `KeyError` (propagating out of the handler) when the session
no longer exists. -/
def exceptBranch (broken : Listener → Bool) (s : MState) (sid : String)
    (logAcc : Log) : Except PyErr (MState × Log) :=
  match broadcastW broken s sid (.errMsg "An error occurred during teaching") none with
  | .error e => .error e
  | .ok (s1, l1) =>
    match clearTeaching s1 sid with
    | .error e => .error e
    | .ok s2 => .ok (s2, logAcc ++ l1)

/-- `LiveClassroomManager.handle_question`. An empty (falsy) question gets
a single unicast `error` and returns with nothing else done. Otherwise:
state update (unguarded dict indexing), `teaching_start` broadcast, the
generator loop, then — inside the `try` — clearing `is_teaching` and
broadcasting `teaching_end`; any exception in the `try` enters
`exceptBranch`. `chunks`/`failure` parametrise the opaque explanation
source for this run. -/
def handleQuestion (broken : Listener → Bool) (chunks : List String)
    (failure : Option String) (s : MState) (ws : Listener) (sid : String)
    (question : String) (subject : Option String) :
    Except PyErr (MState × Log) :=
  if question = "" then
    match send broken ws (.errMsg "Question is required") with
    | .error e => .error e
    | .ok _ => .ok (s, [(ws, .errMsg "Question is required")])
  else
    match setQuestionTeaching s sid question with
    | .error e => .error e
    | .ok s1 =>
      match broadcastW broken s1 sid (.teachingStart question subject) none with
      | .error e => .error e
      | .ok (s2, log2) =>
        let events := streamExplanation question chunks failure
        let r := qLoop broken s2 sid events
        match r.2.2 with
        | some _ => exceptBranch broken r.1 sid (log2 ++ r.2.1)
        | none =>
          match clearTeaching r.1 sid with
          | .error _ => exceptBranch broken r.1 sid (log2 ++ r.2.1)
          | .ok s4 =>
            match broadcastW broken s4 sid .teachingEnd none with
            | .error _ => exceptBranch broken s4 sid (log2 ++ r.2.1)
            | .ok (s5, log5) => .ok (s5, log2 ++ r.2.1 ++ log5)

/-- `LiveClassroomManager.handle_visual_request`; the visual-generation
collaborator's outcome for this call is the opaque parameter `vres`. -/
def handleVisualRequest (broken : Listener → Bool)
    (vres : Except PyErr (Option String × Option String)) (s : MState)
    (ws : Listener) (sid : String) (visualType concept : String) :
    Except PyErr (MState × Log) :=
  match broadcastW broken s sid (.visualLoading visualType concept) none with
  | .error e => .error e
  | .ok (s1, l1) =>
    match vres with
    | .ok (rvt, rurl) =>
      match broadcastW broken s1 sid (.visualReady rvt rurl concept) none with
      | .error e => .error e
      | .ok (s2, l2) => .ok (s2, l1 ++ l2)
    | .error _ =>
      match send broken ws (.errMsg "Failed to generate visual") with
      | .error e => .error e
      | .ok _ => .ok (s1, l1 ++ [(ws, .errMsg "Failed to generate visual")])

/-- `LiveClassroomManager.handle_pause`: unguarded dict indexing, then the
`session_paused` broadcast. -/
def handlePause (broken : Listener → Bool) (s : MState) (sid : String) :
    Except PyErr (MState × Log) :=
  match alookup s.states sid with
  | none => .error .keyError
  | some st =>
    broadcastW broken
      { s with states := aset s.states sid { st with isPaused := some true } }
      sid .sessionPaused none

/-- `LiveClassroomManager.handle_resume`. -/
def handleResume (broken : Listener → Bool) (s : MState) (sid : String) :
    Except PyErr (MState × Log) :=
  match alookup s.states sid with
  | none => .error .keyError
  | some st =>
    broadcastW broken
      { s with states := aset s.states sid { st with isPaused := some false } }
      sid .sessionResumed none

/-- `LiveClassroomManager.handle_feedback`: log-only, then an unguarded
acknowledgment to the sender. -/
def handleFeedback (broken : Listener → Bool) (s : MState) (ws : Listener) :
    Except PyErr (MState × Log) :=
  match send broken ws .feedbackReceived with
  | .error e => .error e
  | .ok _ => .ok (s, [(ws, .feedbackReceived)])

/-- `LiveClassroomManager.handle_chat`: `user_data.get(websocket, {})` —
for a registered sender the stored `user_id` (possibly `None`) is used;
only an unregistered sender falls back to `"anonymous"`. The server
timestamp field is omitted. -/
def handleChat (broken : Listener → Bool) (s : MState) (ws : Listener)
    (sid : String) (msgText : String) : Except PyErr (MState × Log) :=
  let uid : Option String :=
    match alookup s.user ws with
    | some info => info.userId
    | none => some "anonymous"
  broadcastW broken s sid (.chatMessage uid msgText) none

/-- Inbound command messages (`message.get("type")` plus the fields each
handler reads with `.get` defaults); `unknown` covers unrecognized types,
which are silently ignored. -/
inductive InMsg where
  | askQuestion (question : Option String) (subject : Option String)
  | requestVisual (visualType : Option String) (concept : Option String)
  | pauseCmd
  | resumeCmd
  | feedback (feedbackType : Option String)
  | chat (message : Option String)
  | unknown
deriving DecidableEq, Repr

/-- `LiveClassroomManager.handle_message`: returns immediately when the
sender is not registered in `user_data`; otherwise dispatches on the
message type. -/
def handleMessage (broken : Listener → Bool) (chunks : List String)
    (failure : Option String)
    (vres : Except PyErr (Option String × Option String))
    (s : MState) (ws : Listener) (msg : InMsg) : Except PyErr (MState × Log) :=
  match alookup s.user ws with
  | none => .ok (s, [])
  | some info =>
    let sid := info.sessionId
    match msg with
    | .askQuestion q subj =>
      handleQuestion broken chunks failure s ws sid (q.getD "") subj
    | .requestVisual vt c =>
      handleVisualRequest broken vres s ws sid (vt.getD "animation") (c.getD "")
    | .pauseCmd => handlePause broken s sid
    | .resumeCmd => handleResume broken s sid
    | .feedback _ => handleFeedback broken s ws
    | .chat m => handleChat broken s ws sid (m.getD "")
    | .unknown => .ok (s, [])

/-! ### The registry consistency invariant.

`InvD s D` is the registry invariant up to a set `D` of "dangling"
listeners: listeners still present in `user_data` but already removed from
their session's set (exactly the state of the listener being disconnected
while `disconnect` runs its nested `user_left` broadcast). `Inv s` (with
`D = []`) is the stated invariant: participant counts match listener-set
sizes, registered sessions are non-empty, the two session tables have the
same domain, and membership is consistent with `user_data`. -/

def SessOK (s : MState) (D : List Listener) (sid : String)
    (conns : List Listener) : Prop :=
  conns ≠ [] ∧ conns.Nodup ∧
  (alookup s.states sid).map SessState.participants = some (conns.length : Int) ∧
  ∀ w ∈ conns, w ∉ D ∧ (alookup s.user w).map UserInfo.sessionId = some sid

def InvD (s : MState) (D : List Listener) : Prop :=
  (akeys s.active).Nodup ∧ (akeys s.states).Nodup ∧ (akeys s.user).Nodup ∧
  (∀ p ∈ s.active, SessOK s D p.1 p.2) ∧
  (∀ p ∈ s.states, p.1 ∈ akeys s.active) ∧
  (∀ p ∈ s.user, p.1 ∈ D ∨ p.1 ∈ (alookup s.active p.2.sessionId).getD [])

def RegistryInv (s : MState) : Prop := InvD s []

instance (s : MState) (D : List Listener) (sid : String)
    (conns : List Listener) : Decidable (SessOK s D sid conns) := by
  unfold SessOK
  infer_instance

instance (s : MState) (D : List Listener) : Decidable (InvD s D) := by
  unfold InvD
  infer_instance

instance (s : MState) : Decidable (RegistryInv s) := by
  unfold RegistryInv
  infer_instance

theorem invD_lookup_sessOK {s : MState} {D : List Listener} {sid : String}
    {conns : List Listener} (hInv : InvD s D)
    (h : alookup s.active sid = some conns) : SessOK s D sid conns :=
  hInv.2.2.2.1 (sid, conns) (alookup_mem _ _ _ h)

theorem invD_states_of_active {s : MState} {D : List Listener} {sid : String}
    {conns : List Listener} (hInv : InvD s D)
    (h : alookup s.active sid = some conns) :
    ∃ st, alookup s.states sid = some st ∧
      st.participants = (conns.length : Int) := by
  have h2 := (invD_lookup_sessOK hInv h).2.2.1
  cases hst : alookup s.states sid with
  | none => rw [hst] at h2; simp at h2
  | some st =>
    rw [hst] at h2
    simp at h2
    exact ⟨st, rfl, h2⟩

theorem invD_user_to_conns {s : MState} {D : List Listener} {ws : Listener}
    {info : UserInfo} (hInv : InvD s D)
    (h : alookup s.user ws = some info) (hD : ws ∉ D) :
    ∃ conns, alookup s.active info.sessionId = some conns ∧ ws ∈ conns := by
  have h2 := hInv.2.2.2.2.2 (ws, info) (alookup_mem _ _ _ h)
  rcases h2 with h2 | h2
  · exact absurd h2 hD
  · cases hc : alookup s.active info.sessionId with
    | none => rw [hc] at h2; simp at h2
    | some conns =>
      rw [hc] at h2
      exact ⟨conns, rfl, by simpa using h2⟩

/-! Further association-list facts used by the preservation proofs. -/

theorem mem_akeys_aerase_ne {α β : Type} [DecidableEq α]
    (l : List (α × β)) (k k1 : α) (h : k1 ≠ k) :
    k1 ∈ akeys (aerase l k) ↔ k1 ∈ akeys l := by
  rw [mem_akeys_iff_alookup, mem_akeys_iff_alookup, alookup_aerase_ne _ _ _ h]

theorem aerase_aset_self {α β : Type} [DecidableEq α]
    (l : List (α × β)) (k : α) (v : β) :
    aerase (aset l k v) k = aerase l k := by
  induction l with
  | nil => simp [aset, aerase]
  | cons p t ih =>
    obtain ⟨k2, v2⟩ := p
    by_cases h : k2 = k
    · subst h
      rw [aset_cons_self, aerase_cons_self, aerase_cons_self]
    · rw [aset_cons_ne _ _ _ _ _ h, aerase_cons_ne _ _ _ _ h,
        aerase_cons_ne _ _ _ _ h, ih]

/-- Logs produced by disconnect cascades contain only `user_left` events. -/
def UserLeftOnly (log : Log) : Prop := ∀ p ∈ log, ∃ k, p.2 = Msg.userLeft k

/-- Mid-`disconnect` surgery: removing `ws` from its session's set and
decrementing the participant count preserves the invariant with `ws` now
dangling. -/
theorem invD_surgery {s : MState} {D : List Listener} {ws : Listener}
    {info : UserInfo} {conns : List Listener} {st : SessState}
    (hInv : InvD s D)
    (hu : alookup s.user ws = some info)
    (hconns : alookup s.active info.sessionId = some conns)
    (hws : ws ∈ conns)
    (hst : alookup s.states info.sessionId = some st)
    (hne : conns.erase ws ≠ []) :
    InvD { s with
      active := aset s.active info.sessionId (conns.erase ws),
      states := aset s.states info.sessionId
        { st with participants := st.participants - 1 } } (ws :: D) := by
  obtain ⟨hna, hns, hnu, hsess, hdom, huser⟩ := hInv
  obtain ⟨hne0, hnodc, hpcount, hmem⟩ :=
    invD_lookup_sessOK ⟨hna, hns, hnu, hsess, hdom, huser⟩ hconns
  have hpart : st.participants = (conns.length : Int) := by
    rw [hst] at hpcount
    simpa using hpcount
  have hlen2 : ((conns.erase ws).length : Int) = st.participants - 1 := by
    rw [List.length_erase_of_mem hws]
    have := List.length_pos_of_mem hws
    omega
  refine ⟨nodup_akeys_aset _ _ _ hna, nodup_akeys_aset _ _ _ hns, hnu,
    ?_, ?_, ?_⟩
  · intro p hp
    rcases mem_aset_nodup _ _ _ hna hp with hp | ⟨hp, hpne⟩
    · subst hp
      refine ⟨hne, hnodc.erase ws, ?_, ?_⟩
      · show (alookup (aset s.states info.sessionId _) info.sessionId).map _ = _
        rw [alookup_aset_self]
        show some (st.participants - 1) = some ((conns.erase ws).length : Int)
        rw [hlen2]
      · intro w hw
        obtain ⟨hwne, hwc⟩ := hnodc.mem_erase_iff.mp hw
        obtain ⟨hwD, hwu⟩ := hmem w hwc
        refine ⟨?_, hwu⟩
        intro hcon
        rcases List.mem_cons.mp hcon with he | he
        · exact hwne he
        · exact hwD he
    · obtain ⟨hq0, hq1, hq2, hq3⟩ := hsess p hp
      refine ⟨hq0, hq1, ?_, ?_⟩
      · show (alookup (aset s.states info.sessionId _) p.1).map _ = _
        rw [alookup_aset_ne _ _ _ _ hpne]
        exact hq2
      · intro w hw
        obtain ⟨hwD, hwu⟩ := hq3 w hw
        refine ⟨?_, hwu⟩
        intro hcon
        rcases List.mem_cons.mp hcon with he | he
        · subst he
          rw [hu] at hwu
          simp at hwu
          exact hpne hwu.symm
        · exact hwD he
  · intro p hp
    rcases mem_aset_nodup _ _ _ hns hp with hp | ⟨hp, _⟩
    · rw [hp]
      exact (mem_akeys_aset _ _ _ _).mpr (Or.inl rfl)
    · exact (mem_akeys_aset _ _ _ _).mpr (Or.inr (hdom p hp))
  · intro p hp
    rcases huser p hp with hD | hmemc
    · exact Or.inl (List.mem_cons_of_mem _ hD)
    · by_cases hps : p.2.sessionId = info.sessionId
      · rw [hps] at hmemc
        rw [hconns] at hmemc
        simp only [Option.getD_some] at hmemc
        by_cases hpw : p.1 = ws
        · exact Or.inl (by simp [hpw])
        · refine Or.inr ?_
          show p.1 ∈ (alookup (aset s.active info.sessionId _) p.2.sessionId).getD []
          rw [hps, alookup_aset_self]
          simp only [Option.getD_some]
          exact hnodc.mem_erase_iff.mpr ⟨hpw, hmemc⟩
      · refine Or.inr ?_
        show p.1 ∈ (alookup (aset s.active info.sessionId _) p.2.sessionId).getD []
        rw [alookup_aset_ne _ _ _ _ hps]
        exact hmemc

/-- The empty-session branch of `disconnect`: when `ws` was the last member,
deleting the session from both tables and `ws` from `user_data` restores the
invariant. -/
theorem invD_delete {s : MState} {D : List Listener} {ws : Listener}
    {info : UserInfo} {conns : List Listener}
    (hInv : InvD s D)
    (hu : alookup s.user ws = some info)
    (hconns : alookup s.active info.sessionId = some conns)
    (hws : ws ∈ conns)
    (hempty : conns.erase ws = []) :
    InvD { s with
      active := aerase s.active info.sessionId,
      states := aerase s.states info.sessionId,
      user := aerase s.user ws } D := by
  obtain ⟨hna, hns, hnu, hsess, hdom, huser⟩ := hInv
  obtain ⟨hne0, hnodc, hpcount, hmem⟩ :=
    invD_lookup_sessOK ⟨hna, hns, hnu, hsess, hdom, huser⟩ hconns
  have hsingle : ∀ w ∈ conns, w = ws := by
    intro w hw
    by_contra hne
    have : w ∈ conns.erase ws := hnodc.mem_erase_iff.mpr ⟨hne, hw⟩
    rw [hempty] at this
    simp at this
  refine ⟨nodup_akeys_aerase _ _ hna, nodup_akeys_aerase _ _ hns,
    nodup_akeys_aerase _ _ hnu, ?_, ?_, ?_⟩
  · intro p hp
    have hpmem := mem_aerase_sub _ _ hp
    have hpne : p.1 ≠ info.sessionId := by
      intro he
      exact not_mem_akeys_aerase_self _ _ hna
        (he ▸ List.mem_map.mpr ⟨p, hp, rfl⟩)
    obtain ⟨hq0, hq1, hq2, hq3⟩ := hsess p hpmem
    refine ⟨hq0, hq1, ?_, ?_⟩
    · show (alookup (aerase s.states info.sessionId) p.1).map _ = _
      rw [alookup_aerase_ne _ _ _ hpne]
      exact hq2
    · intro w hw
      obtain ⟨hwD, hwu⟩ := hq3 w hw
      have hwne : w ≠ ws := by
        intro he
        subst he
        rw [hu] at hwu
        simp at hwu
        exact hpne hwu.symm
      refine ⟨hwD, ?_⟩
      show (alookup (aerase s.user ws) w).map _ = _
      rw [alookup_aerase_ne _ _ _ hwne]
      exact hwu
  · intro p hp
    have hpmem := mem_aerase_sub _ _ hp
    have hpne : p.1 ≠ info.sessionId := by
      intro he
      exact not_mem_akeys_aerase_self _ _ hns
        (he ▸ List.mem_map.mpr ⟨p, hp, rfl⟩)
    exact (mem_akeys_aerase_ne _ _ _ hpne).mpr (hdom p hpmem)
  · intro p hp
    have hpmem := mem_aerase_sub _ _ hp
    have hpne : p.1 ≠ ws := by
      intro he
      exact not_mem_akeys_aerase_self _ _ hnu
        (he ▸ List.mem_map.mpr ⟨p, hp, rfl⟩)
    rcases huser p hpmem with hD | hmemc
    · exact Or.inl hD
    · have hps : p.2.sessionId ≠ info.sessionId := by
        intro he
        rw [he, hconns] at hmemc
        simp only [Option.getD_some] at hmemc
        exact hpne (hsingle _ hmemc)
      refine Or.inr ?_
      show p.1 ∈ (alookup (aerase s.active info.sessionId) p.2.sessionId).getD []
      rw [alookup_aerase_ne _ _ _ hps]
      exact hmemc

/-- Final step of `disconnect`: deleting the dangling listener's `user_data`
entry turns `InvD _ (ws :: D)` back into `InvD _ D`. -/
theorem invD_unmark {s : MState} {D : List Listener} {ws : Listener}
    (hInv : InvD s (ws :: D)) :
    InvD { s with user := aerase s.user ws } D := by
  obtain ⟨hna, hns, hnu, hsess, hdom, huser⟩ := hInv
  refine ⟨hna, hns, nodup_akeys_aerase _ _ hnu, ?_, hdom, ?_⟩
  · intro p hp
    obtain ⟨hq0, hq1, hq2, hq3⟩ := hsess p hp
    refine ⟨hq0, hq1, hq2, ?_⟩
    intro w hw
    obtain ⟨hwD, hwu⟩ := hq3 w hw
    have hwne : w ≠ ws := fun he => hwD (he ▸ List.mem_cons_self _ _)
    refine ⟨fun hcon => hwD (List.mem_cons_of_mem _ hcon), ?_⟩
    show (alookup (aerase s.user ws) w).map _ = _
    rw [alookup_aerase_ne _ _ _ hwne]
    exact hwu
  · intro p hp
    have hpmem := mem_aerase_sub _ _ hp
    have hpne : p.1 ≠ ws := by
      intro he
      exact not_mem_akeys_aerase_self _ _ hnu
        (he ▸ List.mem_map.mpr ⟨p, hp, rfl⟩)
    rcases huser p hpmem with hD | hmemc
    · rcases List.mem_cons.mp hD with he | he
      · exact absurd he hpne
      · exact Or.inl he
    · exact Or.inr hmemc

theorem cleanup_noop : ∀ (l : List Listener) (s : MState),
    cleanupWith (fun s2 _ => .ok (s2, [])) s l = .ok (s, []) := by
  intro l
  induction l with
  | nil => intro s; rfl
  | cons w ws ih =>
    intro s
    show cleanupWith _ s (w :: ws) = _
    simp only [cleanupWith]
    rw [ih]
    rfl

theorem cleanup_sound (f : MState → Listener → Except PyErr (MState × Log))
    (D : List Listener) (R : Prop)
    (hf : ∀ s w, InvD s D → w ∉ D →
      ∃ s2 log, f s w = .ok (s2, log) ∧ InvD s2 D ∧
        (∀ x, x ∈ akeys s2.user → x ∈ akeys s.user) ∧
        (R → w ∉ akeys s2.user) ∧ UserLeftOnly log) :
    ∀ (l : List Listener) (s : MState), InvD s D → (∀ w ∈ l, w ∉ D) →
      ∃ s2 log, cleanupWith f s l = .ok (s2, log) ∧ InvD s2 D ∧
        (∀ x, x ∈ akeys s2.user → x ∈ akeys s.user) ∧
        (R → ∀ w ∈ l, w ∉ akeys s2.user) ∧ UserLeftOnly log := by
  intro l
  induction l with
  | nil =>
    intro s hInv _
    refine ⟨s, [], rfl, hInv, fun _ h => h, ?_, ?_⟩
    · intro _ w hw
      simp at hw
    · intro p hp
      simp at hp
  | cons w ws ih =>
    intro s hInv hD
    obtain ⟨s2, log1, hf1, hInv2, hsub2, hrem2, hul1⟩ :=
      hf s w hInv (hD w (List.mem_cons_self _ _))
    obtain ⟨s3, log2, hf2, hInv3, hsub3, hrem3, hul2⟩ :=
      ih s2 hInv2 (fun x hx => hD x (List.mem_cons_of_mem _ hx))
    refine ⟨s3, log1 ++ log2, ?_, hInv3,
      fun x hx => hsub2 x (hsub3 x hx), ?_, ?_⟩
    · show cleanupWith f s (w :: ws) = _
      simp only [cleanupWith, hf1, hf2]
    · intro hR x hx
      rcases List.mem_cons.mp hx with he | he
      · subst he
        intro hcon
        exact hrem2 hR (hsub3 x hcon)
      · exact hrem3 hR x he
    · intro p hp
      rcases List.mem_append.mp hp with hp | hp
      · exact hul1 p hp
      · exact hul2 p hp

theorem engine_zero_disc (broken : Listener → Bool) :
    (engine broken 0).disc = fun s _ => .ok (s, []) := rfl

theorem engine_zero_bcast (broken : Listener → Bool) :
    (engine broken 0).bcast = broadcastGo broken (fun s _ => .ok (s, [])) := rfl

theorem engine_succ_disc (broken : Listener → Bool) (fuel : Nat) :
    (engine broken (fuel + 1)).disc = disconnectGo (engine broken fuel).bcast := rfl

theorem engine_succ_bcast (broken : Listener → Bool) (fuel : Nat) :
    (engine broken (fuel + 1)).bcast = broadcastGo broken (engine broken fuel).disc := rfl

/-- Soundness of `disconnect` at a given fuel: it returns (never raises),
preserves the invariant, never adds `user_data` entries, removes its target
(when any fuel is available), and emits only `user_left` events. -/
def DiscSpec (broken : Listener → Bool) (fuel : Nat) : Prop :=
  ∀ s D ws, InvD s D → ws ∉ D →
    ∃ s2 log, (engine broken fuel).disc s ws = .ok (s2, log) ∧ InvD s2 D ∧
      (∀ x, x ∈ akeys s2.user → x ∈ akeys s.user) ∧
      (1 ≤ fuel → ws ∉ akeys s2.user) ∧
      UserLeftOnly log

/-- Soundness of `broadcast_to_session` at a given fuel: it returns (never
raises), preserves the invariant, never adds `user_data` entries, delivers
the event to exactly the non-excluded non-broken members of the session's
set (in set order, before any cleanup notifications), and — with fuel for
the cleanup pass — removes every marked listener from the registry. -/
def BcastSpec (broken : Listener → Bool) (fuel : Nat) : Prop :=
  ∀ s D sid m excl, InvD s D →
    ∃ s2 log, (engine broken fuel).bcast s sid m excl = .ok (s2, log) ∧
      InvD s2 D ∧
      (∀ x, x ∈ akeys s2.user → x ∈ akeys s.user) ∧
      (∀ conns, alookup s.active sid = some conns →
        ∃ clog,
          log = ((conns.filter (fun w => !(excl == some w))).filter
            (fun w => !broken w)).map (fun w => (w, m)) ++ clog ∧
          UserLeftOnly clog ∧
          (2 ≤ fuel → ∀ w ∈ conns, (excl == some w) = false →
            broken w = true → w ∉ akeys s2.user)) ∧
      (alookup s.active sid = none → s2 = s ∧ log = [])

theorem engine_sound (broken : Listener → Bool) :
    ∀ fuel, DiscSpec broken fuel ∧ BcastSpec broken fuel := by
  intro fuel
  induction fuel with
  | zero =>
    constructor
    · intro s D ws hInv hD
      refine ⟨s, [], rfl, hInv, fun _ h => h, ?_, ?_⟩
      · intro h
        omega
      · intro p hp
        simp at hp
    · intro s D sid m excl hInv
      rw [engine_zero_bcast]
      cases hc : alookup s.active sid with
      | none =>
        have hres : broadcastGo broken (fun s0 _ => Except.ok (s0, [])) s sid m excl
            = .ok (s, []) := by
          unfold broadcastGo
          simp only [hc]
        refine ⟨s, [], hres, hInv, fun _ h => h, ?_, fun _ => ⟨rfl, rfl⟩⟩
        intro conns hcon
        simp at hcon
      | some conns =>
        have hres : broadcastGo broken (fun s0 _ => Except.ok (s0, [])) s sid m excl
            = .ok (s, ((conns.filter (fun w => !(excl == some w))).filter
                (fun w => !broken w)).map (fun w => (w, m))) := by
          unfold broadcastGo
          simp only [hc, cleanup_noop, List.append_nil]
        refine ⟨s, _, hres, hInv, fun _ h => h, ?_, ?_⟩
        · intro conns2 hcon
          injection hcon with hcon
          subst hcon
          refine ⟨[], (List.append_nil _).symm, ?_, ?_⟩
          · intro p hp
            simp at hp
          · intro h
            omega
        · intro hcon
          simp at hcon
  | succ fuel ih =>
    obtain ⟨ihd, ihb⟩ := ih
    constructor
    · -- DiscSpec (fuel + 1)
      intro s D ws hInv hD
      rw [engine_succ_disc]
      cases hu : alookup s.user ws with
      | none =>
        have hres : disconnectGo (engine broken fuel).bcast s ws = .ok (s, []) := by
          unfold disconnectGo
          simp only [hu]
        refine ⟨s, [], hres, hInv, fun _ h => h,
          fun _ => (alookup_eq_none_iff _ _).mp hu, ?_⟩
        intro p hp
        simp at hp
      | some info =>
        obtain ⟨conns, hconns, hws⟩ := invD_user_to_conns hInv hu hD
        obtain ⟨st, hst, hpart⟩ := invD_states_of_active hInv hconns
        by_cases hE : conns.erase ws = []
        · have hres : disconnectGo (engine broken fuel).bcast s ws =
              .ok ({ s with active := aerase s.active info.sessionId,
                            states := aerase s.states info.sessionId,
                            user := aerase s.user ws }, []) := by
            unfold disconnectGo
            simp only [hu, hconns, hst, hE, List.isEmpty_nil, if_true,
              aerase_aset_self]
          refine ⟨_, [], hres, ?_, ?_, ?_, ?_⟩
          · exact invD_delete hInv hu hconns hws hE
          · intro x hx
            exact akeys_aerase_sub _ _ _ hx
          · intro _
            exact not_mem_akeys_aerase_self _ _ hInv.2.2.1
          · intro p hp
            simp at hp
        · have hcond : (conns.erase ws).isEmpty = false := by
            simp [List.isEmpty_iff, hE]
          have hInv2 := invD_surgery hInv hu hconns hws hst hE
          obtain ⟨s3, log3, hb, hInv3, hsub3, hshape, _⟩ :=
            ihb { s with
                active := aset s.active info.sessionId (conns.erase ws),
                states := aset s.states info.sessionId
                  { st with participants := st.participants - 1 } }
              (ws :: D) info.sessionId (.userLeft (st.participants - 1))
              none hInv2
          have hres : disconnectGo (engine broken fuel).bcast s ws =
              .ok ({ s3 with user := aerase s3.user ws }, log3) := by
            unfold disconnectGo
            simp only [hu, hconns, hst, hcond, Bool.false_eq_true, if_false, hb]
          obtain ⟨clog, hlog, hul, _⟩ :=
            hshape (conns.erase ws) (alookup_aset_self _ _ _)
          refine ⟨_, log3, hres, invD_unmark hInv3, ?_, ?_, ?_⟩
          · intro x hx
            exact hsub3 x (akeys_aerase_sub _ _ _ hx)
          · intro _
            exact not_mem_akeys_aerase_self _ _ hInv3.2.2.1
          · intro p hp
            rw [hlog] at hp
            rcases List.mem_append.mp hp with hp | hp
            · rcases List.mem_map.mp hp with ⟨w, _, hw⟩
              exact ⟨_, by rw [← hw]⟩
            · exact hul p hp
    · -- BcastSpec (fuel + 1)
      intro s D sid m excl hInv
      rw [engine_succ_bcast]
      cases hc : alookup s.active sid with
      | none =>
        have hres : broadcastGo broken (engine broken fuel).disc s sid m excl
            = .ok (s, []) := by
          unfold broadcastGo
          simp only [hc]
        refine ⟨s, [], hres, hInv, fun _ h => h, ?_, fun _ => ⟨rfl, rfl⟩⟩
        intro conns hcon
        simp at hcon
      | some conns =>
        have hSOK := invD_lookup_sessOK hInv hc
        have hmem := hSOK.2.2.2
        have hmarkedD : ∀ w ∈ (conns.filter (fun w => !(excl == some w))).filter
            (fun w => broken w), w ∉ D := by
          intro w hw
          have hw2 := (List.mem_filter.mp (List.mem_filter.mp hw).1).1
          exact (hmem w hw2).1
        obtain ⟨s2, clog, hcw, hInv2, hsub2, hrem2, hul2⟩ :=
          cleanup_sound _ D (1 ≤ fuel) (fun s0 w hI hD0 => ihd s0 D w hI hD0)
            _ s hInv hmarkedD
        have hres : broadcastGo broken (engine broken fuel).disc s sid m excl
            = .ok (s2, ((conns.filter (fun w => !(excl == some w))).filter
                (fun w => !broken w)).map (fun w => (w, m)) ++ clog) := by
          unfold broadcastGo
          simp only [hc, hcw]
        refine ⟨s2, _, hres, hInv2, hsub2, ?_, ?_⟩
        · intro conns2 hcon
          injection hcon with hcon
          subst hcon
          refine ⟨clog, rfl, hul2, ?_⟩
          intro hfuel w hw hexcl hbr
          refine hrem2 (by omega) w ?_
          exact List.mem_filter.mpr
            ⟨List.mem_filter.mpr ⟨hw, by simp [hexcl]⟩, hbr⟩
        · intro hcon
          simp at hcon

theorem aset_aset {α β : Type} [DecidableEq α] (l : List (α × β)) (k : α)
    (v v2 : β) : aset (aset l k v) k v2 = aset l k v2 := by
  induction l with
  | nil => simp [aset]
  | cons p t ih =>
    obtain ⟨k1, v1⟩ := p
    by_cases h : k1 = k
    · subst h
      rw [aset_cons_self, aset_cons_self, aset_cons_self]
    · rw [aset_cons_ne _ _ _ _ _ h, aset_cons_ne _ _ _ _ _ h,
        aset_cons_ne _ _ _ _ _ h, ih]

theorem fuelFor_ge_two (s : MState) : 2 ≤ fuelFor s := by
  unfold fuelFor
  omega

/-- `disconnect` on an unregistered listener is a no-op at every fuel. -/
theorem disc_noop (broken : Listener → Bool) :
    ∀ fuel (s : MState) (ws : Listener), alookup s.user ws = none →
      (engine broken fuel).disc s ws = .ok (s, []) := by
  intro fuel s ws hu
  cases fuel with
  | zero => rfl
  | succ fuel =>
    rw [engine_succ_disc]
    unfold disconnectGo
    simp only [hu]

/-- Wrapper-level soundness of `disconnect` from a consistent state. -/
theorem disconnectW_sound (broken : Listener → Bool) (s : MState)
    (ws : Listener) (hInv : RegistryInv s) :
    ∃ s2 log, disconnectW broken s ws = .ok (s2, log) ∧ RegistryInv s2 ∧
      (∀ x, x ∈ akeys s2.user → x ∈ akeys s.user) ∧
      ws ∉ akeys s2.user ∧ UserLeftOnly log := by
  obtain ⟨s2, log, h, hI, hsub, hrem, hul⟩ :=
    (engine_sound broken (fuelFor s)).1 s [] ws hInv (by simp)
  exact ⟨s2, log, h, hI, hsub, hrem (by have := fuelFor_ge_two s; omega), hul⟩

/-- Wrapper-level soundness of `broadcast_to_session` from a consistent
state. -/
theorem broadcastW_sound (broken : Listener → Bool) (s : MState)
    (sid : String) (m : Msg) (excl : Option Listener)
    (hInv : RegistryInv s) :
    ∃ s2 log, broadcastW broken s sid m excl = .ok (s2, log) ∧
      RegistryInv s2 ∧
      (∀ x, x ∈ akeys s2.user → x ∈ akeys s.user) ∧
      (∀ conns, alookup s.active sid = some conns →
        ∃ clog,
          log = ((conns.filter (fun w => !(excl == some w))).filter
            (fun w => !broken w)).map (fun w => (w, m)) ++ clog ∧
          UserLeftOnly clog ∧
          (∀ w ∈ conns, (excl == some w) = false → broken w = true →
            w ∉ akeys s2.user)) ∧
      (alookup s.active sid = none → s2 = s ∧ log = []) := by
  obtain ⟨s2, log, h, hI, hsub, hshape, hnone⟩ :=
    (engine_sound broken (fuelFor s)).2 s [] sid m excl hInv
  refine ⟨s2, log, h, hI, hsub, ?_, hnone⟩
  intro conns hc
  obtain ⟨clog, hlog, hul, hrem⟩ := hshape conns hc
  exact ⟨clog, hlog, hul, hrem (fuelFor_ge_two s)⟩

/-- `connect` of a fresh listener into a not-yet-existing session preserves
the invariant (state after the table mutations, before the sends). -/
theorem invD_connect_new {s : MState} {ws : Listener} {sid : String}
    (uid : Option String) (hInv : RegistryInv s)
    (hfresh : ws ∉ akeys s.user) (hA : sid ∉ akeys s.active) :
    RegistryInv { s with active := aset s.active sid [ws],
                         states := aset s.states sid ⟨none, false, none, 1⟩,
                         user := aset s.user ws ⟨sid, uid⟩ } := by
  obtain ⟨hna, hns, hnu, hsess, hdom, huser⟩ := hInv
  refine ⟨nodup_akeys_aset _ _ _ hna, nodup_akeys_aset _ _ _ hns,
    nodup_akeys_aset _ _ _ hnu, ?_, ?_, ?_⟩
  · intro p hp
    rcases mem_aset_nodup _ _ _ hna hp with hp | ⟨hp, hpne⟩
    · subst hp
      refine ⟨by simp, by simp, ?_, ?_⟩
      · show (alookup (aset s.states sid _) sid).map _ = _
        rw [alookup_aset_self]
        simp
      · intro w hw
        simp at hw
        subst hw
        refine ⟨by simp, ?_⟩
        show (alookup (aset s.user w _) w).map _ = _
        rw [alookup_aset_self]
        simp
    · obtain ⟨hq0, hq1, hq2, hq3⟩ := hsess p hp
      refine ⟨hq0, hq1, ?_, ?_⟩
      · show (alookup (aset s.states sid _) p.1).map _ = _
        rw [alookup_aset_ne _ _ _ _ hpne]
        exact hq2
      · intro w hw
        obtain ⟨hwD, hwu⟩ := hq3 w hw
        have hwmem : w ∈ akeys s.user := by
          rw [mem_akeys_iff_alookup]
          cases hlu : alookup s.user w with
          | none => rw [hlu] at hwu; simp at hwu
          | some _ => simp
        have hwne : w ≠ ws := fun he => hfresh (he ▸ hwmem)
        refine ⟨by simp, ?_⟩
        show (alookup (aset s.user ws _) w).map _ = _
        rw [alookup_aset_ne _ _ _ _ hwne]
        exact hwu
  · intro p hp
    rcases mem_aset_nodup _ _ _ hns hp with hp | ⟨hp, _⟩
    · rw [hp]
      exact (mem_akeys_aset _ _ _ _).mpr (Or.inl rfl)
    · exact (mem_akeys_aset _ _ _ _).mpr (Or.inr (hdom p hp))
  · intro p hp
    rcases mem_aset_nodup _ _ _ hnu hp with hp | ⟨hp, hpne⟩
    · subst hp
      refine Or.inr ?_
      show _ ∈ (alookup (aset s.active sid _) _).getD []
      rw [alookup_aset_self]
      simp
    · rcases huser p hp with hD | hmemc
      · simp at hD
      · by_cases hps : p.2.sessionId = sid
        · rw [hps] at hmemc
          rw [(alookup_eq_none_iff s.active sid).mpr hA] at hmemc
          simp at hmemc
        · refine Or.inr ?_
          show p.1 ∈ (alookup (aset s.active sid _) p.2.sessionId).getD []
          rw [alookup_aset_ne _ _ _ _ hps]
          exact hmemc

/-- `connect` of a fresh listener into an existing session preserves the
invariant (state after the table mutations, before the sends). -/
theorem invD_connect_old {s : MState} {ws : Listener} {sid : String}
    (uid : Option String) {conns : List Listener} {st : SessState}
    (hInv : RegistryInv s) (hfresh : ws ∉ akeys s.user)
    (hconns : alookup s.active sid = some conns)
    (hst : alookup s.states sid = some st) :
    RegistryInv { s with active := aset s.active sid (conns ++ [ws]),
                         states := aset s.states sid
                           { st with participants := st.participants + 1 },
                         user := aset s.user ws ⟨sid, uid⟩ } := by
  obtain ⟨st2, hst2, hpart⟩ := invD_states_of_active hInv hconns
  rw [hst] at hst2
  injection hst2 with hst2
  subst hst2
  obtain ⟨hne0, hnodc, _, hmem⟩ := invD_lookup_sessOK hInv hconns
  have husermem : ∀ w ∈ conns, w ∈ akeys s.user := by
    intro w hw
    have hwu := (hmem w hw).2
    rw [mem_akeys_iff_alookup]
    cases hlu : alookup s.user w with
    | none => rw [hlu] at hwu; simp at hwu
    | some _ => simp
  have hwsconns : ws ∉ conns := fun hc => hfresh (husermem ws hc)
  obtain ⟨hna, hns, hnu, hsess, hdom, huser⟩ := hInv
  refine ⟨nodup_akeys_aset _ _ _ hna, nodup_akeys_aset _ _ _ hns,
    nodup_akeys_aset _ _ _ hnu, ?_, ?_, ?_⟩
  · intro p hp
    rcases mem_aset_nodup _ _ _ hna hp with hp | ⟨hp, hpne⟩
    · subst hp
      refine ⟨by simp, ?_, ?_, ?_⟩
      · rw [List.nodup_append]
        exact ⟨hnodc, by simp, by
          intro a ha hb
          simp at hb
          exact hwsconns (hb ▸ ha)⟩
      · show (alookup (aset s.states sid _) sid).map _ = _
        rw [alookup_aset_self]
        simp [hpart]
      · intro w hw
        rcases List.mem_append.mp hw with hw | hw
        · obtain ⟨_, hwu⟩ := hmem w hw
          have hwne : w ≠ ws := fun he => hfresh (he ▸ husermem w hw)
          refine ⟨by simp, ?_⟩
          show (alookup (aset s.user ws _) w).map _ = _
          rw [alookup_aset_ne _ _ _ _ hwne]
          exact hwu
        · simp at hw
          subst hw
          refine ⟨by simp, ?_⟩
          show (alookup (aset s.user w _) w).map _ = _
          rw [alookup_aset_self]
          simp
    · obtain ⟨hq0, hq1, hq2, hq3⟩ := hsess p hp
      refine ⟨hq0, hq1, ?_, ?_⟩
      · show (alookup (aset s.states sid _) p.1).map _ = _
        rw [alookup_aset_ne _ _ _ _ hpne]
        exact hq2
      · intro w hw
        obtain ⟨_, hwu⟩ := hq3 w hw
        have hwmem : w ∈ akeys s.user := by
          rw [mem_akeys_iff_alookup]
          cases hlu : alookup s.user w with
          | none => rw [hlu] at hwu; simp at hwu
          | some _ => simp
        have hwne : w ≠ ws := fun he => hfresh (he ▸ hwmem)
        refine ⟨by simp, ?_⟩
        show (alookup (aset s.user ws _) w).map _ = _
        rw [alookup_aset_ne _ _ _ _ hwne]
        exact hwu
  · intro p hp
    rcases mem_aset_nodup _ _ _ hns hp with hp | ⟨hp, _⟩
    · rw [hp]
      exact (mem_akeys_aset _ _ _ _).mpr (Or.inl rfl)
    · exact (mem_akeys_aset _ _ _ _).mpr (Or.inr (hdom p hp))
  · intro p hp
    rcases mem_aset_nodup _ _ _ hnu hp with hp | ⟨hp, hpne⟩
    · subst hp
      refine Or.inr ?_
      show _ ∈ (alookup (aset s.active sid _) _).getD []
      rw [alookup_aset_self]
      simp
    · rcases huser p hp with hD | hmemc
      · simp at hD
      · by_cases hps : p.2.sessionId = sid
        · rw [hps] at hmemc
          rw [hconns] at hmemc
          simp only [Option.getD_some] at hmemc
          refine Or.inr ?_
          show p.1 ∈ (alookup (aset s.active sid _) p.2.sessionId).getD []
          rw [hps, alookup_aset_self]
          simp [hmemc]
        · refine Or.inr ?_
          show p.1 ∈ (alookup (aset s.active sid _) p.2.sessionId).getD []
          rw [alookup_aset_ne _ _ _ _ hps]
          exact hmemc

/-- `connect` of a fresh listener preserves the invariant, whichever of its
paths (fresh or existing session, broken or healthy welcome send) is
taken. -/
theorem connectW_preserves (broken : Listener → Bool) (s : MState)
    (ws : Listener) (sid : String) (uid : Option String)
    (hInv : RegistryInv s) (hfresh : ws ∉ akeys s.user) :
    RegistryInv (connectW broken s ws sid uid).1 := by
  unfold connectW
  by_cases hA : sid ∈ akeys s.active
  · obtain ⟨conns, hconns⟩ : ∃ conns, alookup s.active sid = some conns := by
      have h2 := (mem_akeys_iff_alookup s.active sid).mp hA
      cases h : alookup s.active sid with
      | none => rw [h] at h2; simp at h2
      | some c => exact ⟨c, rfl⟩
    obtain ⟨st, hst, hpart⟩ := invD_states_of_active hInv hconns
    obtain ⟨hne0, hnodc, _, hmem⟩ := invD_lookup_sessOK hInv hconns
    have hwsc : ws ∉ conns := by
      intro hc
      refine hfresh ?_
      have hwu := (hmem ws hc).2
      rw [mem_akeys_iff_alookup]
      cases hlu : alookup s.user ws with
      | none => rw [hlu] at hwu; simp at hwu
      | some _ => simp
    have hI2 := invD_connect_old uid hInv hfresh hconns hst
    simp only [hA, if_true, hconns, Option.getD_some, sadd, hwsc, if_false,
      hst]
    by_cases hbw : broken ws
    · simp only [send, hbw, if_true]
      exact hI2
    · simp only [send, hbw, Bool.false_eq_true, if_false]
      obtain ⟨s3, blog, hb, hI3, _, _, _⟩ :=
        broadcastW_sound broken
          { s with active := aset s.active sid (conns ++ [ws]),
                   states := aset s.states sid
                     { st with participants := st.participants + 1 },
                   user := aset s.user ws ⟨sid, uid⟩ }
          sid (.userJoined (st.participants + 1)) (some ws) hI2
      simp only [hb]
      exact hI3
  · have hI2 := invD_connect_new uid hInv hfresh hA
    simp only [hA, if_false, alookup_aset_self, Option.getD_some, sadd,
      List.not_mem_nil, if_false, List.nil_append, aset_aset, zero_add]
    by_cases hbw : broken ws
    · simp only [send, hbw, if_true]
      exact hI2
    · simp only [send, hbw, Bool.false_eq_true, if_false]
      obtain ⟨s3, blog, hb, hI3, _, _, _⟩ :=
        broadcastW_sound broken
          { s with active := aset s.active sid [ws],
                   states := aset s.states sid ⟨none, false, none, 1⟩,
                   user := aset s.user ws ⟨sid, uid⟩ }
          sid (.userJoined 1) (some ws) hI2
      simp only [hb]
      exact hI3

/-! ### Connect/Disconnect operation sequences (for the registry invariant). -/

inductive COp where
  | conn (ws : Listener) (sid : String) (uid : Option String)
  | disc (ws : Listener)
deriving DecidableEq, Repr

/-- One registry operation. A `disc` whose `disconnect` raises (impossible
from consistent states) keeps the state; the `Except` model carries no
partially-mutated state for that dead branch. -/
def execOp (broken : Listener → Bool) (s : MState) : COp → MState
  | .conn ws sid uid => (connectW broken s ws sid uid).1
  | .disc ws =>
    match disconnectW broken s ws with
    | .ok r => r.1
    | .error _ => s

def execList (broken : Listener → Bool) (s : MState) : List COp → MState
  | [] => s
  | op :: rest => execList broken (execOp broken s op) rest

/-- Validity of an operation sequence: each `Connect` presents a listener
handle not currently registered (the transport layer hands each accepted
WebSocket to `connect` exactly once); `Disconnect` is unrestricted. -/
def validB (broken : Listener → Bool) (s : MState) : List COp → Bool
  | [] => true
  | op :: rest =>
    (match op with
     | .conn ws _ _ => alookup s.user ws == none
     | .disc _ => true) && validB broken (execOp broken s op) rest

theorem execList_preserves (broken : Listener → Bool) :
    ∀ (ops : List COp) (s : MState), RegistryInv s →
      validB broken s ops = true → RegistryInv (execList broken s ops) := by
  intro ops
  induction ops with
  | nil =>
    intro s h _
    exact h
  | cons op rest ih =>
    intro s hInv hv
    simp only [validB, Bool.and_eq_true] at hv
    refine ih _ ?_ hv.2
    cases op with
    | conn ws sid uid =>
      have hfresh : alookup s.user ws = none := by
        have := hv.1
        simpa using this
      exact connectW_preserves broken s ws sid uid hInv
        ((alookup_eq_none_iff _ _).mp hfresh)
    | disc ws =>
      obtain ⟨s2, log, h, hI, _, _, _⟩ := disconnectW_sound broken s ws hInv
      show RegistryInv (execOp broken s (.disc ws))
      unfold execOp
      simp only [disconnectW] at h
      simp only [disconnectW, h]
      exact hI

/-- The registry facts claimed for every reachable state: each participant
count matches the listener-set size, no registered session is empty, and
the listener-set and session-state tables have the same domain. -/
def RegistryProps (s : MState) : Prop :=
  (∀ sid conns, alookup s.active sid = some conns →
    conns ≠ [] ∧
    (alookup s.states sid).map SessState.participants =
      some (conns.length : Int)) ∧
  (∀ sid, sid ∈ akeys s.active ↔ sid ∈ akeys s.states)

theorem registryInv_props (s : MState) (hInv : RegistryInv s) :
    RegistryProps s := by
  constructor
  · intro sid conns hc
    have hS := invD_lookup_sessOK hInv hc
    exact ⟨hS.1, hS.2.2.1⟩
  · intro sid
    constructor
    · intro h
      obtain ⟨conns, hc⟩ : ∃ conns, alookup s.active sid = some conns := by
        have h2 := (mem_akeys_iff_alookup s.active sid).mp h
        cases hl : alookup s.active sid with
        | none => rw [hl] at h2; simp at h2
        | some c => exact ⟨c, rfl⟩
      have hS := invD_lookup_sessOK hInv hc
      have h3 := hS.2.2.1
      rw [mem_akeys_iff_alookup]
      cases hl : alookup s.states sid with
      | none => rw [hl] at h3; simp at h3
      | some _ => simp
    · intro h
      rcases List.mem_map.mp h with ⟨p, hp, he⟩
      exact he ▸ hInv.2.2.2.2.1 p hp

/-! ### Structure of one streaming run (for the generator claims). -/

def isTerminal : TEvent → Bool
  | .complete _ => true
  | .error _ => true
  | _ => false

def isEmphasisEv : TEvent → Bool
  | .emphasis _ _ => true
  | _ => false

/-- `s.endswith(('.', '!', '?'))`: whether the last character is one of the
three sentence terminators (what the spec asserts the boundary check to
be). -/
def endsInSentencePunct (s : String) : Bool :=
  match s.data.getLast? with
  | some ch => (ch == '.') || (ch == '!') || (ch == '?')
  | none => false

theorem emitWord_not_terminal (w : String) :
    ∀ e ∈ emitWord w, isTerminal e = false := by
  intro e he
  unfold emitWord at he
  rcases List.mem_cons.mp he with he | he
  · rw [he]
    rfl
  · cases h : checkEmphasis w with
    | none => rw [h] at he; simp at he
    | some imp =>
      rw [h] at he
      simp at he
      rw [he]
      rfl

theorem processContent_not_terminal (st : GenState) (c : String) :
    ∀ e ∈ (processContent st c).2, isTerminal e = false := by
  intro e he
  unfold processContent at he
  by_cases hc : c = ""
  · simp [hc] at he
  · simp only [hc, if_false] at he
    rcases List.mem_append.mp he with he | he
    · by_cases hw : strContainsChar (st.wordBuffer ++ c) ' '
          || strContainsChar (st.wordBuffer ++ c) '\n'
      · simp only [hw, if_true] at he
        rcases List.mem_flatMap.mp he with ⟨w, _, hw2⟩
        exact emitWord_not_terminal w e hw2
      · simp only [hw, Bool.false_eq_true, if_false] at he
        simp at he
    · by_cases hs : strContainsChar (st.currentSentence ++ c) '.'
          || strContainsChar (st.currentSentence ++ c) '!'
          || strContainsChar (st.currentSentence ++ c) '?'
      · simp only [hs, if_true] at he
        rcases List.mem_append.mp he with he | he
        · cases h : extractVisualCue (st.currentSentence ++ c) with
          | none => rw [h] at he; simp at he
          | some cue =>
            rw [h] at he
            simp at he
            rw [he]
            rfl
        · simp at he
          rw [he]
          rfl
      · simp only [hs, Bool.false_eq_true, if_false] at he
        simp at he

theorem runChunks_not_terminal (chunks : List String) :
    ∀ (st : GenState), ∀ e ∈ (runChunks st chunks).2, isTerminal e = false := by
  induction chunks with
  | nil =>
    intro st e he
    simp [runChunks] at he
  | cons c rest ih =>
    intro st e he
    unfold runChunks at he
    rcases List.mem_append.mp he with he | he
    · exact processContent_not_terminal st c e he
    · exact ih _ e he

theorem processContent_fullText (st : GenState) (c : String) :
    (processContent st c).1.fullText = st.fullText ++ c := by
  unfold processContent
  by_cases hc : c = ""
  · simp [hc, String.append_empty]
  · simp only [hc, if_false]

theorem pyConcat_from (l : List String) :
    ∀ (a : String), l.foldl (fun x y => x ++ y) a = a ++ pyConcat l := by
  induction l with
  | nil =>
    intro a
    simp [pyConcat, String.append_empty]
  | cons c rest ih =>
    intro a
    show rest.foldl _ (a ++ c) = _
    rw [ih (a ++ c)]
    unfold pyConcat
    show _ = a ++ rest.foldl _ ("" ++ c)
    rw [ih ("" ++ c)]
    rw [show ("" ++ c : String) = c from by
      have := String.append_empty c
      cases c
      rfl]
    rw [String.append_assoc]
    rfl

theorem runChunks_fullText (chunks : List String) :
    ∀ (st : GenState),
      (runChunks st chunks).1.fullText = st.fullText ++ pyConcat chunks := by
  induction chunks with
  | nil =>
    intro st
    simp [runChunks, pyConcat, String.append_empty]
  | cons c rest ih =>
    intro st
    unfold runChunks
    show (runChunks (processContent st c).1 rest).1.fullText = _
    rw [ih, processContent_fullText]
    unfold pyConcat
    show _ = st.fullText ++ rest.foldl _ ("" ++ c)
    rw [pyConcat_from rest ("" ++ c),
      show ("" ++ c : String) = c from by cases c; rfl,
      String.append_assoc]
    rfl

instance {e a : Type} [DecidableEq e] [DecidableEq a] :
    DecidableEq (Except e a) := fun x y =>
  match x, y with
  | .ok x1, .ok y1 =>
    if h : x1 = y1 then .isTrue (by rw [h])
    else .isFalse (fun hh => h (by injection hh))
  | .error x1, .error y1 =>
    if h : x1 = y1 then .isTrue (by rw [h])
    else .isFalse (fun hh => h (by injection hh))
  | .ok _, .error _ => .isFalse (fun hh => by injection hh)
  | .error _, .ok _ => .isFalse (fun hh => by injection hh)

/-! ### The claims. -/

/-- C1: for every sequence of Connect and Disconnect operations (each
Connect presenting a fresh listener handle, as the transport layer
guarantees), every session in the registry has its `participants` count
equal to the size of its listener set, no registered session has an empty
listener set (an emptied session is removed), and the listener-set table
and the session-state table have exactly the same sessions. -/
theorem c1_registry_invariant (broken : Listener → Bool) (ops : List COp)
    (hv : validB broken emptyMState ops = true) :
    RegistryProps (execList broken emptyMState ops) :=
  registryInv_props _ (execList_preserves broken ops emptyMState (by decide) hv)

def c1DemoOps : List COp :=
  [.conn 1 "abc12345" (some "A"), .conn 2 "abc12345" none, .disc 1]

theorem c1_registry_invariant_witness :
    validB (fun _ => false) emptyMState c1DemoOps = true ∧
    RegistryProps (execList (fun _ => false) emptyMState c1DemoOps) :=
  ⟨by decide, c1_registry_invariant (fun _ => false) c1DemoOps (by decide)⟩

/-- C2: a broadcast from a consistent registry state never raises; the
event is delivered to exactly the non-excluded, non-broken members of the
session's listener set (in set order, before any cleanup notifications);
the log appended by the deferred cleanup pass consists only of `user_left`
events; every marked (broken, non-excluded) listener has been removed from
the registry by the deferred `disconnect` pass; and the registry is again
consistent. -/
theorem c2_broadcast_delivery (broken : Listener → Bool) (s : MState)
    (sid : String) (m : Msg) (excl : Option Listener) (conns : List Listener)
    (hInv : RegistryInv s) (hconns : alookup s.active sid = some conns) :
    ∃ s2 clog,
      broadcastW broken s sid m excl =
        .ok (s2, ((conns.filter (fun w => !(excl == some w))).filter
          (fun w => !broken w)).map (fun w => (w, m)) ++ clog) ∧
      UserLeftOnly clog ∧
      (∀ w ∈ conns, (excl == some w) = false → broken w = true →
        w ∉ akeys s2.user) ∧
      RegistryInv s2 := by
  obtain ⟨s2, log, h, hI, _, hshape, _⟩ :=
    broadcastW_sound broken s sid m excl hInv
  obtain ⟨clog, hlog, hul, hrem⟩ := hshape conns hconns
  refine ⟨s2, clog, ?_, hul, hrem, hI⟩
  rw [← hlog]
  exact h

def c2DemoState : MState :=
  ⟨[("s", [1, 2, 3])], [("s", ⟨none, false, none, 3⟩)],
   [(1, ⟨"s", none⟩), (2, ⟨"s", none⟩), (3, ⟨"s", none⟩)]⟩

theorem c2_broadcast_delivery_witness :
    RegistryInv c2DemoState ∧
    alookup c2DemoState.active "s" = some [1, 2, 3] ∧
    (∃ s2 clog,
      broadcastW (fun w => w == 2) c2DemoState "s" Msg.teachingEnd (some 3) =
        .ok (s2, (([1, 2, 3].filter (fun w => !((some 3 : Option Listener) == some w))).filter
          (fun w => !(w == 2))).map (fun w => (w, Msg.teachingEnd)) ++ clog) ∧
      UserLeftOnly clog ∧
      (∀ w ∈ [1, 2, 3], ((some 3 : Option Listener) == some w) = false →
        (w == 2) = true → w ∉ akeys s2.user) ∧
      RegistryInv s2) :=
  ⟨by decide, by decide,
    c2_broadcast_delivery (fun w => w == 2) c2DemoState "s" Msg.teachingEnd
      (some 3) [1, 2, 3] (by decide) (by decide)⟩

/-- C9: Disconnect of a listener that is not currently registered is a
no-op — it returns normally, sends nothing, and leaves the whole registry
state unchanged; and from any consistent state, running Disconnect twice is
the same as running it once (the second run is a no-op). -/
theorem c9_disconnect_idempotent (broken : Listener → Bool) (s : MState)
    (ws : Listener) :
    (alookup s.user ws = none → disconnectW broken s ws = .ok (s, [])) ∧
    (RegistryInv s → ∀ s2 log, disconnectW broken s ws = .ok (s2, log) →
      disconnectW broken s2 ws = .ok (s2, [])) := by
  constructor
  · intro hu
    exact disc_noop broken (fuelFor s) s ws hu
  · intro hInv s2 log h
    obtain ⟨s2b, logb, hb, _, _, hrem, _⟩ := disconnectW_sound broken s ws hInv
    rw [h] at hb
    injection hb with hb
    have hs2 : s2b = s2 := (congrArg Prod.fst hb).symm
    subst hs2
    exact disc_noop broken (fuelFor s2b) s2b ws ((alookup_eq_none_iff _ _).mpr hrem)

theorem c9_disconnect_idempotent_witness :
    alookup emptyMState.user 3 = none ∧
    disconnectW (fun _ => false) emptyMState 3 = .ok (emptyMState, []) :=
  ⟨by decide,
    (c9_disconnect_idempotent (fun _ => false) emptyMState 3).1 (by decide)⟩

/-- C10: an inbound command from a listener that is not registered in the
`user_data` table is ignored: the dispatcher returns normally with no send
and no state change, whatever the command type. -/
theorem c10_unregistered_ignored (broken : Listener → Bool)
    (chunks : List String) (failure : Option String)
    (vres : Except PyErr (Option String × Option String)) (s : MState)
    (ws : Listener) (msg : InMsg) (h : alookup s.user ws = none) :
    handleMessage broken chunks failure vres s ws msg = .ok (s, []) := by
  unfold handleMessage
  simp only [h]

theorem c10_unregistered_ignored_witness :
    alookup c2DemoState.user 9 = none ∧
    handleMessage (fun _ => false) ["Hi "] none (.ok (none, none))
      c2DemoState 9 (.askQuestion (some "What is gravity?") none) =
      .ok (c2DemoState, []) :=
  ⟨by decide,
    c10_unregistered_ignored (fun _ => false) ["Hi "] none (.ok (none, none))
      c2DemoState 9 (.askQuestion (some "What is gravity?") none) (by decide)⟩

/-- C8: an `ask_question` whose question text is empty (falsy) sends
exactly one `error` event to the asking listener only, performs no
broadcast, and returns with the registry state — including `isTeaching`
and `currentQuestion` — completely unchanged. -/
theorem c8_empty_question (broken : Listener → Bool) (chunks : List String)
    (failure : Option String) (s : MState) (ws : Listener) (sid : String)
    (subject : Option String) (hok : broken ws = false) :
    handleQuestion broken chunks failure s ws sid "" subject =
      .ok (s, [(ws, .errMsg "Question is required")]) := by
  unfold handleQuestion
  simp [send, hok]

def c8DemoState : MState :=
  ⟨[("s", [1])], [("s", ⟨some "old", true, none, 1⟩)], [(1, ⟨"s", none⟩)]⟩

theorem c8_empty_question_witness :
    ((fun _ => false : Listener → Bool) 1 = false) ∧
    handleQuestion (fun _ => false) ["Hi "] none c8DemoState 1 "s" "" none =
      .ok (c8DemoState, [(1, .errMsg "Question is required")]) :=
  ⟨rfl, c8_empty_question (fun _ => false) ["Hi "] none c8DemoState 1 "s" none rfl⟩

/-- The state of an `ask_question` run whose only listener (the asker) has
a broken channel: the `teaching_start` broadcast removes the listener, which
empties and deletes the session mid-run. -/
def c4DemoState : MState :=
  ⟨[("s", [7])], [("s", ⟨none, false, none, 1⟩)], [(7, ⟨"s", none⟩)]⟩

def c4Broken : Listener → Bool := fun w => w == 7

/-- C4: the claim is refuted by the code. When the session no longer exists
(its last listener disconnected mid-stream), clearing the teaching state is
not a silent no-op: `handle_question` indexes
`self.session_states[session_id]` directly, the resulting `KeyError` is
caught by the `except` clause, whose own trailing
`self.session_states[session_id]["is_teaching"] = False` raises `KeyError`
again — and that one propagates to the caller. This theorem evaluates the
embedded handler at the failing input. -/
theorem c4_keyerror_on_dead_session :
    handleQuestion c4Broken ["hi "] none c4DemoState 7 "s"
      "What is gravity?" none = .error .keyError := by
  decide

def c6Broken : Listener → Bool := fun _ => false

def c6DemoState : MState :=
  ⟨[("s", [1, 2])], [("s", ⟨none, false, none, 2⟩)],
   [(1, ⟨"s", none⟩), (2, ⟨"s", none⟩)]⟩

def logOf (r : Except PyErr (MState × Log)) : Log :=
  match r with
  | .ok p => p.2
  | .error _ => []

def resultOk (r : Except PyErr (MState × Log)) : Bool :=
  match r with
  | .ok _ => true
  | .error _ => false

def hasCueMsg (l : Log) : Bool :=
  l.any (fun p =>
    match p.2 with
    | .ev (.visualCue _ _) => true
    | _ => false)

def hasVisualUpdateMsg (l : Log) : Bool :=
  l.any (fun p =>
    match p.2 with
    | .visualUpdate _ => true
    | _ => false)

/-- C6 counterexample: a run over text containing "graph" broadcasts a
`visual_cue` event with action `show_graph`, yet no `visual_update` event
is ever broadcast — refuting "this holds for every visual_cue regardless of
its action kind". -/
theorem c6_no_visual_update_cex :
    resultOk (handleQuestion c6Broken ["See the graph. "] none c6DemoState
      1 "s" "Explain" none) = true ∧
    hasCueMsg (logOf (handleQuestion c6Broken ["See the graph. "] none
      c6DemoState 1 "s" "Explain" none)) = true ∧
    hasVisualUpdateMsg (logOf (handleQuestion c6Broken ["See the graph. "]
      none c6DemoState 1 "s" "Explain" none)) = false := by
  decide

/-- C6 (amended): for each `visual_cue` observed while driving a streaming
run, the dispatcher derives a `visual_update` only for the `animate` action
(resolving the descriptor from the static animation table) and the
`show_visual` action (an image descriptor); cues with any other action —
`show_graph`, `draw`, `show_diagram` — produce no `visual_update`. -/
theorem c6_visual_update_actions (data : CueData) :
    processVisualCue "animate" data = some (VUpdate.animation
      (match data with | .vtype t => some t | .vdescr _ => none)
      (getAnimationData
        (match data with | .vtype t => some t | .vdescr _ => none)).1
      (getAnimationData
        (match data with | .vtype t => some t | .vdescr _ => none)).2) ∧
    processVisualCue "show_visual" data = some (VUpdate.image
      (match data with | .vdescr d => some d | .vtype _ => none)) ∧
    processVisualCue "show_graph" data = none ∧
    processVisualCue "draw" data = none ∧
    processVisualCue "show_diagram" data = none := by
  refine ⟨?_, ?_, ?_, ?_, ?_⟩ <;> simp [processVisualCue]

/-- C7 counterexample: with the source delivering the single fragment
"gravity" (no trailing whitespace), the run emits the word "gravity" as
text — via the final partial-word flush, which skips the emphasis check —
and no `emphasis` event at all, even though the emphasis table maps
"gravity" to "high". -/
theorem c7_flushed_word_cex :
    streamExplanation "What is gravity?" ["gravity"] none =
      [.start "What is gravity?", .text "gravity", .complete "gravity"] ∧
    checkEmphasis "gravity" = some "high" := by
  decide

/-- C7 (amended): the emphasis tables behave as claimed — "gravity" maps to
importance "high", "example" to "medium", and a word in neither table (after
lowercasing and stripping `.,!?`) yields no emphasis — and each word emitted
through the word-assembly path is followed by an `emphasis` event exactly
when the table matches; but the final flushed partial word bypasses the
check (see the counterexample). -/
theorem c7_emphasis_tables (w : String)
    (hw1 : stripChars ['.', ',', '!', '?'] (pyLower w) ∉ highImportance)
    (hw2 : stripChars ['.', ',', '!', '?'] (pyLower w) ∉ mediumImportance) :
    checkEmphasis "gravity" = some "high" ∧
    checkEmphasis "example" = some "medium" ∧
    checkEmphasis w = none ∧
    (∀ w2 i, TEvent.emphasis w2 i ∈ emitWord w2 ↔ checkEmphasis w2 = some i) := by
  refine ⟨by decide, by decide, ?_, ?_⟩
  · unfold checkEmphasis
    simp [hw1, hw2]
  · intro w2 i
    unfold emitWord
    cases h : checkEmphasis w2 with
    | none => simp
    | some j =>
      simp
      exact eq_comm

theorem c7_emphasis_tables_witness :
    stripChars ['.', ',', '!', '?'] (pyLower "zebra") ∉ highImportance ∧
    stripChars ['.', ',', '!', '?'] (pyLower "zebra") ∉ mediumImportance ∧
    (checkEmphasis "gravity" = some "high" ∧
     checkEmphasis "example" = some "medium" ∧
     checkEmphasis "zebra" = none ∧
     (∀ w2 i, TEvent.emphasis w2 i ∈ emitWord w2 ↔ checkEmphasis w2 = some i)) :=
  ⟨by decide, by decide, c7_emphasis_tables "zebra" (by decide) (by decide)⟩

/-- C5 counterexample: the code fires the sentence-boundary logic whenever
the current-sentence buffer merely CONTAINS `.`, `!` or `?`. With the
fragment "a.b c" the buffer never ends in one of the three characters, yet
the run emits a `pause` and clears the buffer. -/
theorem c5_contains_vs_endswith_cex :
    streamExplanation "q" ["a.b c"] none =
      [.start "q", .text "a.b ", .pause sentencePause, .text "c",
       .complete "a.b c"] ∧
    endsInSentencePunct (initGenState.currentSentence ++ "a.b c") = false ∧
    TEvent.pause sentencePause ∈ (processContent initGenState "a.b c").2 ∧
    (processContent initGenState "a.b c").1.currentSentence = "" := by
  decide

/-- C5 (amended): per processed fragment, the visual-cue scan, the
fixed-duration pause and the clearing of the sentence buffer happen exactly
when the current-sentence buffer CONTAINS `.`, `!` or `?` (not when it ends
in one of them); otherwise no cue or pause is emitted for the fragment and
the buffer keeps accumulating. The word-path events preceding them are only
`text`/`emphasis` events. -/
theorem c5_sentence_boundary_amended (st : GenState) (c : String)
    (hc : c ≠ "") :
    ∃ wevs,
      (∀ e ∈ wevs, (∃ w, e = TEvent.text w) ∨ ∃ w i, e = TEvent.emphasis w i) ∧
      ((strContainsChar (st.currentSentence ++ c) '.' ||
        strContainsChar (st.currentSentence ++ c) '!' ||
        strContainsChar (st.currentSentence ++ c) '?') = true →
        (processContent st c).2 = wevs ++
          (match extractVisualCue (st.currentSentence ++ c) with
           | some cue => [TEvent.visualCue cue.action cue.data]
           | none => []) ++ [TEvent.pause sentencePause] ∧
        (processContent st c).1.currentSentence = "") ∧
      ((strContainsChar (st.currentSentence ++ c) '.' ||
        strContainsChar (st.currentSentence ++ c) '!' ||
        strContainsChar (st.currentSentence ++ c) '?') = false →
        (processContent st c).2 = wevs ∧
        (processContent st c).1.currentSentence = st.currentSentence ++ c) := by
  have hclass : ∀ e ∈ (pySplit (st.wordBuffer ++ c)).dropLast.flatMap emitWord,
      (∃ w, e = TEvent.text w) ∨ ∃ w i, e = TEvent.emphasis w i := by
    intro e he
    rcases List.mem_flatMap.mp he with ⟨w, _, hw2⟩
    unfold emitWord at hw2
    rcases List.mem_cons.mp hw2 with h2 | h2
    · exact Or.inl ⟨_, h2⟩
    · cases hch : checkEmphasis w with
      | none =>
        rw [hch] at h2
        simp at h2
      | some imp =>
        rw [hch] at h2
        simp at h2
        exact Or.inr ⟨w, imp, h2⟩
  by_cases hw : (strContainsChar (st.wordBuffer ++ c) ' ' ||
      strContainsChar (st.wordBuffer ++ c) '\n') = true
  · refine ⟨(pySplit (st.wordBuffer ++ c)).dropLast.flatMap emitWord,
      hclass, ?_, ?_⟩
    · intro hs
      have hpc : processContent st c =
          (⟨st.fullText ++ c, "", (pySplit (st.wordBuffer ++ c)).getLastD ""⟩,
           (pySplit (st.wordBuffer ++ c)).dropLast.flatMap emitWord ++
             ((match extractVisualCue (st.currentSentence ++ c) with
               | some cue => [TEvent.visualCue cue.action cue.data]
               | none => []) ++ [TEvent.pause sentencePause])) := by
        simp only [processContent, if_neg hc, if_pos hw, if_pos hs]
      rw [hpc, List.append_assoc]
      exact ⟨rfl, rfl⟩
    · intro hs2
      have hs3 : ¬((strContainsChar (st.currentSentence ++ c) '.' ||
          strContainsChar (st.currentSentence ++ c) '!' ||
          strContainsChar (st.currentSentence ++ c) '?') = true) := by
        simp [hs2]
      have hpc : processContent st c =
          (⟨st.fullText ++ c, st.currentSentence ++ c,
            (pySplit (st.wordBuffer ++ c)).getLastD ""⟩,
           (pySplit (st.wordBuffer ++ c)).dropLast.flatMap emitWord ++ []) := by
        simp only [processContent, if_neg hc, if_pos hw, if_neg hs3]
      rw [hpc, List.append_nil]
      exact ⟨rfl, rfl⟩
  · refine ⟨[], by intro e he; simp at he, ?_, ?_⟩
    · intro hs
      have hpc : processContent st c =
          (⟨st.fullText ++ c, "", st.wordBuffer ++ c⟩,
           [] ++ ((match extractVisualCue (st.currentSentence ++ c) with
               | some cue => [TEvent.visualCue cue.action cue.data]
               | none => []) ++ [TEvent.pause sentencePause])) := by
        simp only [processContent, if_neg hc, if_neg hw, if_pos hs]
      rw [hpc]
      exact ⟨rfl, rfl⟩
    · intro hs2
      have hs3 : ¬((strContainsChar (st.currentSentence ++ c) '.' ||
          strContainsChar (st.currentSentence ++ c) '!' ||
          strContainsChar (st.currentSentence ++ c) '?') = true) := by
        simp [hs2]
      have hpc : processContent st c =
          (⟨st.fullText ++ c, st.currentSentence ++ c, st.wordBuffer ++ c⟩,
           ([] : List TEvent) ++ []) := by
        simp only [processContent, if_neg hc, if_neg hw, if_neg hs3]
      rw [hpc]
      exact ⟨rfl, rfl⟩

theorem c5_sentence_boundary_amended_witness :
    ("Hello there." ≠ "") ∧
    (∃ wevs,
      (∀ e ∈ wevs, (∃ w, e = TEvent.text w) ∨ ∃ w i, e = TEvent.emphasis w i) ∧
      ((strContainsChar (initGenState.currentSentence ++ "Hello there.") '.' ||
        strContainsChar (initGenState.currentSentence ++ "Hello there.") '!' ||
        strContainsChar (initGenState.currentSentence ++ "Hello there.") '?') = true →
        (processContent initGenState "Hello there.").2 = wevs ++
          (match extractVisualCue (initGenState.currentSentence ++ "Hello there.") with
           | some cue => [TEvent.visualCue cue.action cue.data]
           | none => []) ++ [TEvent.pause sentencePause] ∧
        (processContent initGenState "Hello there.").1.currentSentence = "") ∧
      ((strContainsChar (initGenState.currentSentence ++ "Hello there.") '.' ||
        strContainsChar (initGenState.currentSentence ++ "Hello there.") '!' ||
        strContainsChar (initGenState.currentSentence ++ "Hello there.") '?') = false →
        (processContent initGenState "Hello there.").2 = wevs ∧
        (processContent initGenState "Hello there.").1.currentSentence =
          initGenState.currentSentence ++ "Hello there.")) :=
  ⟨by decide, c5_sentence_boundary_amended initGenState "Hello there." (by decide)⟩

theorem stream_tail_shape (q : String) (chunks : List String)
    (failure : Option String) :
    streamExplanation q chunks failure =
      (TEvent.start q :: (runChunks initGenState chunks).2) ++
        (match failure with
         | some msg => [TEvent.error msg]
         | none =>
           (if (runChunks initGenState chunks).1.wordBuffer = "" then []
            else [TEvent.text (runChunks initGenState chunks).1.wordBuffer]) ++
             [TEvent.complete (runChunks initGenState chunks).1.fullText]) := by
  unfold streamExplanation
  cases failure <;> simp

theorem filter_terminal_prefix (q : String) (chunks : List String) :
    List.filter isTerminal
      (TEvent.start q :: (runChunks initGenState chunks).2) = [] := by
  rw [List.filter_eq_nil_iff]
  intro e he
  rcases List.mem_cons.mp he with he | he
  · rw [he]
    simp [isTerminal]
  · rw [runChunks_not_terminal chunks initGenState e he]
    simp

/-- C3: every run of the streaming generator for a non-empty question
starts with the `start` event carrying the question; the run ends with
exactly one terminal event — `error` with the failure message when the
source failed, otherwise `complete` carrying the full accumulated text
(the concatenation of all delivered fragments); no other terminal event
appears anywhere in the run; and on exhaustion a non-empty residual word
buffer is flushed as the final `text` event just before `complete`. -/
theorem c3_stream_event_shape (q : String) (hq : q ≠ "")
    (chunks : List String) (failure : Option String) :
    (streamExplanation q chunks failure).head? = some (.start q) ∧
    (streamExplanation q chunks failure).getLast? =
      some (match failure with
            | some msg => TEvent.error msg
            | none => TEvent.complete (pyConcat chunks)) ∧
    (streamExplanation q chunks failure).filter isTerminal =
      [match failure with
       | some msg => TEvent.error msg
       | none => TEvent.complete (pyConcat chunks)] ∧
    (failure = none → (runChunks initGenState chunks).1.wordBuffer ≠ "" →
      (streamExplanation q chunks failure).dropLast.getLast? =
        some (.text (runChunks initGenState chunks).1.wordBuffer)) := by
  have hnil : ∀ s : String, "" ++ s = s := by
    intro s
    cases s
    rfl
  have hfull : (runChunks initGenState chunks).1.fullText = pyConcat chunks := by
    rw [runChunks_fullText]
    exact hnil _
  cases failure with
  | some msg =>
    refine ⟨rfl, ?_, ?_, ?_⟩
    · rw [stream_tail_shape, List.getLast?_concat]
    · rw [stream_tail_shape, List.filter_append, filter_terminal_prefix]
      rfl
    · intro h
      exact absurd h (by simp)
  | none =>
    by_cases hwb : (runChunks initGenState chunks).1.wordBuffer = ""
    · have hev : streamExplanation q chunks none =
          (TEvent.start q :: (runChunks initGenState chunks).2) ++
            [TEvent.complete (pyConcat chunks)] := by
        rw [stream_tail_shape, if_pos hwb, hfull]
        rfl
      refine ⟨rfl, ?_, ?_, ?_⟩
      · rw [hev, List.getLast?_concat]
      · rw [hev, List.filter_append, filter_terminal_prefix]
        rfl
      · intro _ h2
        exact absurd hwb h2
    · have hev : streamExplanation q chunks none =
          ((TEvent.start q :: (runChunks initGenState chunks).2) ++
            [TEvent.text (runChunks initGenState chunks).1.wordBuffer]) ++
            [TEvent.complete (pyConcat chunks)] := by
        rw [stream_tail_shape, if_neg hwb, hfull, List.append_assoc]
      refine ⟨rfl, ?_, ?_, ?_⟩
      · rw [hev, List.getLast?_concat]
      · rw [hev, List.filter_append, List.filter_append,
          filter_terminal_prefix]
        rfl
      · intro _ _
        rw [hev, List.dropLast_concat, List.getLast?_concat]

theorem c3_stream_event_shape_witness :
    ("What is gravity?" ≠ "") ∧
    ((streamExplanation "What is gravity?" ["Hi "] none).head? =
        some (.start "What is gravity?") ∧
     (streamExplanation "What is gravity?" ["Hi "] none).getLast? =
        some (match (none : Option String) with
              | some msg => TEvent.error msg
              | none => TEvent.complete (pyConcat ["Hi "])) ∧
     (streamExplanation "What is gravity?" ["Hi "] none).filter isTerminal =
        [match (none : Option String) with
         | some msg => TEvent.error msg
         | none => TEvent.complete (pyConcat ["Hi "])] ∧
     ((none : Option String) = none →
       (runChunks initGenState ["Hi "]).1.wordBuffer ≠ "" →
       (streamExplanation "What is gravity?" ["Hi "] none).dropLast.getLast? =
         some (.text (runChunks initGenState ["Hi "]).1.wordBuffer))) :=
  ⟨by decide, c3_stream_event_shape "What is gravity?" (by decide) ["Hi "] none⟩
